import Mathlib

/-!
Verification of the node_resolver repository core against its specification.

Rust `str` values are modelled as lists of Unicode code points (`List Nat`).
This is faithful for every operation the sources use (`starts_with`,
`replacen`, equality, concatenation): in valid UTF-8, byte-level
occurrences of valid UTF-8 needles always align with character
boundaries, so byte-level and character-level matching agree.
-/

namespace NodeResolver

/-- Strings are modelled as lists of Unicode code points. -/
abbrev Str := List Nat

/-- Convert a Lean string literal into the code-point model. -/
def chars (s : String) : Str := s.data.map Char.toNat

/-- Rust `str::starts_with` (string pattern). -/
def strStartsWith (s p : Str) : Bool := p.isPrefixOf s

/-- `PathKind` from src/kind.rs. -/
inductive PathKind
  | empty
  | relative
  | absoluteWin
  | absolutePosix
  | internal
  | buildInModule
  | normal
deriving DecidableEq, Repr

/-- `BUILT_IN_MODULE_SET` from src/kind.rs (the exact list, including the
`"assert/,strict"` entry as written in the source). -/
def builtInModuleList : List Str :=
  ([ "_http_agent", "_http_client", "_http_common", "_http_incoming",
     "_http_outgoing", "_http_server", "_stream_duplex", "_stream_passthrough",
     "_stream_readable", "_stream_transform", "_stream_wrap", "_stream_writable",
     "_tls_common", "_tls_wrap", "assert", "assert/,strict", "async_hooks",
     "buffer", "child_process", "cluster", "console", "constants", "crypto",
     "dgram", "diagnostics_channel", "dns", "dns/promises", "domain", "events",
     "fs", "fs/promises", "http", "http2", "https", "inspector", "module",
     "net", "os", "path", "path/posix", "path/win32", "perf_hooks", "process",
     "punycode", "querystring", "readline", "repl", "stream",
     "stream/consumers", "stream/promises", "stream/web", "string_decoder",
     "sys", "timers", "timers/promises", "tls", "trace_events", "tty", "url",
     "util", "util/types", "v8", "vm", "wasi", "worker_threads", "zlib"
   ] : List String).map chars

/-- `Resolver::is_build_in_module` from src/kind.rs. -/
def isBuildInModule (target : Str) : Bool := builtInModuleList.contains target

/-- `ABSOLUTE_WIN_PATTERN_LENGTH_TWO` from src/kind.rs. -/
def absoluteWinPatternLengthTwo : List Str :=
  ([ "a:", "b:", "c:", "d:", "e:", "f:", "g:", "h:", "i:", "j:", "k:", "l:",
     "m:", "n:", "o:", "p:", "q:", "r:", "s:", "t:", "u:", "v:", "w:", "x:",
     "y:", "z:", "A:", "B:", "C:", "D:", "E:", "F:", "G:", "H:", "I:", "J:",
     "K:", "L:", "M:", "N:", "O:", "P:", "Q:", "R:", "S:", "T:", "U:", "V:",
     "W:", "X:", "Y:", "Z:" ] : List String).map chars

/-- `ABSOLUTE_WIN_PATTERN_REST` from src/kind.rs. -/
def absoluteWinPatternRest : List Str :=
  ([ "a:\\", "b:\\", "c:\\", "d:\\", "e:\\", "f:\\", "g:\\", "h:\\", "i:\\",
     "j:\\", "k:\\", "l:\\", "m:\\", "n:\\", "o:\\", "p:\\", "q:\\", "r:\\",
     "s:\\", "t:\\", "u:\\", "v:\\", "w:\\", "x:\\", "y:\\", "z:\\", "A:\\",
     "B:\\", "C:\\", "D:\\", "E:\\", "F:\\", "G:\\", "H:\\", "I:\\", "J:\\",
     "K:\\", "L:\\", "M:\\", "N:\\", "O:\\", "P:\\", "Q:\\", "R:\\", "S:\\",
     "T:\\", "U:\\", "V:\\", "W:\\", "X:\\", "Y:\\", "Z:\\",
     "a:/", "b:/", "c:/", "d:/", "e:/", "f:/", "g:/", "h:/", "i:/", "j:/",
     "k:/", "l:/", "m:/", "n:/", "o:/", "p:/", "q:/", "r:/", "s:/", "t:/",
     "u:/", "v:/", "w:/", "x:/", "y:/", "z:/", "A:/", "B:/", "C:/", "D:/",
     "E:/", "F:/", "G:/", "H:/", "I:/", "J:/", "K:/", "L:/", "M:/", "N:/",
     "O:/", "P:/", "Q:/", "R:/", "S:/", "T:/", "U:/", "V:/", "W:/", "X:/",
     "Y:/", "Z:/" ] : List String).map chars

/-- Start position of the leftmost match of any of `pats` in `s`: the model
of `PMA.leftmost_find_iter(target).next()` (daachorse, LeftmostLongest).
The first match reported by a leftmost iterator is the one with minimal
start position; the code only inspects that start position (its
`mat.end() - mat.start() == match_pattern_len` check is true by
construction for any reported match). -/
def leftmostFindStart (pats : List Str) : Str → Option Nat
  | [] => if pats.any (fun p => p.isPrefixOf ([] : Str)) then some 0 else none
  | c :: rest =>
      if pats.any (fun p => p.isPrefixOf (c :: rest)) then some 0
      else (leftmostFindStart pats rest).map (· + 1)

/-- `Resolver::get_target_kind` from src/kind.rs, clause for clause. -/
def getTargetKind (target : Str) : PathKind :=
  if target.isEmpty then .empty
  else if isBuildInModule target then .buildInModule
  else if strStartsWith target (chars "#") then .internal
  else if strStartsWith target (chars "/") then .absolutePosix
  else if target = chars "." ∨ strStartsWith target (chars "./")
      ∨ strStartsWith target (chars "../") ∨ target = chars ".." then .relative
  else if target.length = 2 ∧ target ∈ absoluteWinPatternLengthTwo then
    .absoluteWin
  else
    match leftmostFindStart absoluteWinPatternRest target with
    | some start => if start = 0 then .absoluteWin else .normal
    | none => .normal

/-- The code points of the 52 ASCII drive letters in the order the source
lists them (lowercase a-z then uppercase A-Z). -/
def driveLetterCodes : List Nat :=
  (List.range 26).map (· + 97) ++ (List.range 26).map (· + 65)

/-- Claim C6's classifier, written from the claim's words: empty; builtin
set member; leading `#`; leading `/`; `.`, `..`, `./…`, `../…`; a drive
letter plus `:` alone or followed by `\` or `/`; otherwise Normal. -/
def getTargetKindSpec (target : Str) : PathKind :=
  if target = [] then .empty
  else if target ∈ builtInModuleList then .buildInModule
  else if target.head? = some 35 then .internal
  else if target.head? = some 47 then .absolutePosix
  else if target = [46] ∨ target = [46, 46]
      ∨ [46, 47].isPrefixOf target ∨ [46, 46, 47].isPrefixOf target then
    .relative
  else
    match target with
    | [c, col] =>
        if col = 58 ∧ ((97 ≤ c ∧ c ≤ 122) ∨ (65 ≤ c ∧ c ≤ 90)) then .absoluteWin
        else .normal
    | c :: col :: sep :: _ =>
        if col = 58 ∧ ((97 ≤ c ∧ c ≤ 122) ∨ (65 ≤ c ∧ c ≤ 90))
            ∧ (sep = 92 ∨ sep = 47) then .absoluteWin
        else .normal
    | _ => .normal

/-- `Error` from src (error.rs is referenced by the sources; variants and
payloads as used by src/entry.rs, src/plugin/exports_field.rs and
src/tsconfig.rs: `UnexpectedJson(path, ..)`, `UnexpectedValue(msg)`,
`Io(..)`, `Overflow`, `ResolveFailedTag`, `CantFindTsConfig(path)`). -/
inductive Err
  | unexpectedJson (path : Str)
  | unexpectedValue (msg : Str)
  | io
  | overflow
  | resolveFailedTag
  | cantFindTsConfig (path : Str)
deriving DecidableEq, Repr

/-- `AliasKind` from src/options.rs. -/
inductive AliasKind
  | target (dst : Str)
  | ignored
deriving DecidableEq, Repr

/-- `Request` from the data model (spec section 3): target, query
(starts with `?` or empty), fragment (starts with `#` or empty), kind. -/
structure Request where
  target : Str
  query : Str
  fragment : Str
  kind : PathKind
deriving DecidableEq, Repr

/-- `Info`: the current focus of resolution, a directory path plus a
request (spec section 3; info.rs is not under src/, but the fields used
by the plugins in src/ are exactly these two). Paths are modelled as
their display strings. -/
structure Info where
  path : Str
  request : Request
deriving DecidableEq, Repr

/-- `Request::with_target` as used by src/plugin/alias.rs and
src/plugin/browser_field.rs: replace the target, keep query/fragment. -/
def Request.withTarget (r : Request) (t : Str) : Request :=
  { r with target := t }

/-- `ResolveResult` from src/lib.rs, with the payload constructor named
`info` as in src/plugin/exports_field.rs (`ResolveResult::Info`). -/
inductive ResolveResult
  | info (i : Info)
  | ignored
deriving DecidableEq, Repr

/-- Modelled from the spec: `State` (state.rs is not under src/).
Spec section 3: `Resolving(Info) | Success(Resource|Ignored) |
Failed(Info) | Error(Err)`. -/
inductive RState
  | resolving (info : Info)
  | success (r : ResolveResult)
  | failed (info : Info)
  | error (e : Err)
deriving DecidableEq, Repr

/-- Modelled from the spec: `State::is_finished` (state.rs is not under
src/). Spec section 4.6: "a finished state (Success/Error) short-circuits
all downstream stages". -/
def RState.isFinished : RState → Bool
  | .success _ => true
  | .error _ => true
  | _ => false

/-- Modelled from the spec: the monadic `then` on `State` (state.rs is
not under src/). Spec section 9: "compose via a monadic `then` on `State`
that passes through non-`Resolving` states". -/
def RState.andThen (s : RState) (f : Info → RState) : RState :=
  match s with
  | .resolving info => f info
  | s => s

/-- Rust `str::replacen(from, to, 1)`: replace the leftmost occurrence of
`from` by `to` (the string is returned unchanged when `from` does not
occur; an empty `from` matches at position 0). -/
def replaceFirst (f dst : Str) : Str → Str
  | [] => if f = [] then dst else []
  | c :: rest =>
      if f.isPrefixOf (c :: rest) then dst ++ (c :: rest).drop f.length
      else c :: replaceFirst f dst rest

/-- `AliasPlugin::apply` from src/plugin/alias.rs, as the loop over the
remaining alias entries. `resolve` abstracts the recursive call
`resolver._resolve(alias_info, context)`. -/
def aliasLoopPure (resolve : Info → RState) (info : Info) :
    List (Str × AliasKind) → RState
  | [] => .resolving info
  | (f, k) :: rest =>
      if info.request.target = f
          ∨ strStartsWith info.request.target (f ++ chars "/") then
        match k with
        | .target dst =>
            if strStartsWith info.request.target dst then
              -- skip `target.starts_with(to)` to prevent infinite loop
              aliasLoopPure resolve info rest
            else
              let normalizedTarget := replaceFirst f dst info.request.target
              let st := resolve
                { path := info.path
                  request := info.request.withTarget normalizedTarget }
              if st.isFinished then st else aliasLoopPure resolve info rest
        | .ignored => .success .ignored
      else aliasLoopPure resolve info rest

/-- `AliasPlugin::apply` from src/plugin/alias.rs (entry point). -/
def aliasApply (al : List (Str × AliasKind)) (resolve : Info → RState)
    (info : Info) : RState :=
  aliasLoopPure resolve info al

/-- Claim C2's alias stage, written from the claim's words: identical
iteration, but the cycle guard skips the entry when the REWRITTEN target
still begins with `to`. -/
def aliasLoopClaim (resolve : Info → RState) (info : Info) :
    List (Str × AliasKind) → RState
  | [] => .resolving info
  | (f, k) :: rest =>
      if info.request.target = f
          ∨ strStartsWith info.request.target (f ++ chars "/") then
        match k with
        | .target dst =>
            let normalizedTarget := replaceFirst f dst info.request.target
            if strStartsWith normalizedTarget dst then
              aliasLoopClaim resolve info rest
            else
              let st := resolve
                { path := info.path
                  request := info.request.withTarget normalizedTarget }
              if st.isFinished then st else aliasLoopClaim resolve info rest
        | .ignored => .success .ignored
      else aliasLoopClaim resolve info rest

/-- Claim C2's alias stage (entry point, claim's wording). -/
def aliasApplyClaim (al : List (Str × AliasKind)) (resolve : Info → RState)
    (info : Info) : RState :=
  aliasLoopClaim resolve info al

/-- The outcome a single alias entry contributes, for the first-match
formulation of the amended claim C2: `none` means iteration continues
with the next entry. The cycle guard compares the ORIGINAL target with
`to`, as the source does. -/
def aliasEntryStep (resolve : Info → RState) (info : Info)
    (e : Str × AliasKind) : Option RState :=
  if info.request.target = e.1
      ∨ strStartsWith info.request.target (e.1 ++ chars "/") then
    match e.2 with
    | .target dst =>
        if strStartsWith info.request.target dst then none
        else
          let st := resolve
            { path := info.path
              request := info.request.withTarget
                (replaceFirst e.1 dst info.request.target) }
          if st.isFinished then some st else none
    | .ignored => some (.success .ignored)
  else none

/-- Amended claim C2's alias stage: the first entry (in insertion order)
that produces an outcome wins; if none does, the stage passes through. -/
def aliasApplyAmended (al : List (Str × AliasKind)) (resolve : Info → RState)
    (info : Info) : RState :=
  (al.findSome? (aliasEntryStep resolve info)).getD (.resolving info)

mutual

/-- `Resolver::_resolve` from src/lib.rs, restricted to the stages that
exist under src/: the depth guard (`context.depth.increase(); if
context.depth.cmp(127).is_ge() { return Error(Overflow) }`, with the
depth counter modelled from the spec as a natural number since
context.rs is not under src/), the `ParsePlugin` (modelled from the
spec as the identity on an already-parsed `Info`), the `AliasPlugin`
(from src/plugin/alias.rs, with its recursive `_resolve` call), and
`next`, which abstracts every later pipeline stage. -/
def resolveModel (al : List (Str × AliasKind)) (next : Info → RState)
    (depth : Nat) (info : Info) : RState :=
  if 127 ≤ depth + 1 then .error .overflow
  else (resolveLoop al next (depth + 1) info al).andThen next
termination_by (127 - depth, 0)
decreasing_by
  all_goals simp_wf
  all_goals first
    | (apply Prod.Lex.left; omega)
    | (apply Prod.Lex.right; omega)

/-- The `AliasPlugin::apply` loop of src/plugin/alias.rs with the
recursive call tied back to `resolveModel` (the `context.depth` at loop
time is the incremented depth). -/
def resolveLoop (al : List (Str × AliasKind)) (next : Info → RState)
    (depth : Nat) (info : Info) : List (Str × AliasKind) → RState
  | [] => .resolving info
  | (f, k) :: rest =>
      if info.request.target = f
          ∨ strStartsWith info.request.target (f ++ chars "/") then
        match k with
        | .target dst =>
            if strStartsWith info.request.target dst then
              resolveLoop al next depth info rest
            else
              let st := resolveModel al next depth
                { path := info.path
                  request := info.request.withTarget
                    (replaceFirst f dst info.request.target) }
              if st.isFinished then st else resolveLoop al next depth info rest
        | .ignored => .success .ignored
      else resolveLoop al next depth info rest
termination_by es => (127 - depth, es.length + 1)
decreasing_by
  all_goals simp_wf
  all_goals first
    | (apply Prod.Lex.left; omega)
    | (apply Prod.Lex.right; omega)

end

/-- A fuel-indexed companion of `resolveModel`: `resolveFuel fuel` agrees
with `resolveModel depth` at `fuel = 126 - depth` (proved below). Being
structurally recursive, it evaluates by `decide` on concrete inputs. -/
def resolveFuel (al : List (Str × AliasKind)) (next : Info → RState) :
    Nat → Info → RState
  | 0, _ => .error .overflow
  | fuel + 1, info =>
      (aliasLoopPure (resolveFuel al next fuel) info al).andThen next

/-- The alias loop over an `Option`-valued recursive resolver, for the
reference semantics of the amended claim C3: a recursive call that
exhausts the budget makes the whole outcome undetermined (`none`). -/
def aliasLoopOpt (recur : Info → Option RState) (info : Info) :
    List (Str × AliasKind) → Option RState
  | [] => some (.resolving info)
  | (f, k) :: rest =>
      if info.request.target = f
          ∨ strStartsWith info.request.target (f ++ chars "/") then
        match k with
        | .target dst =>
            if strStartsWith info.request.target dst then
              aliasLoopOpt recur info rest
            else
              match recur
                { path := info.path
                  request := info.request.withTarget
                    (replaceFirst f dst info.request.target) } with
              | none => none
              | some st =>
                  if st.isFinished then some st
                  else aliasLoopOpt recur info rest
        | .ignored => some (.success .ignored)
      else aliasLoopOpt recur info rest

/-- Reference semantics for the amended claim C3: the same pipeline as
`resolveModel` but with an explicit nesting-depth budget (`fuel`) in
place of the 127 limit; `none` means the rewriting did not complete
within the budget. -/
def resolveRef (al : List (Str × AliasKind)) (next : Info → RState) :
    Nat → Info → Option RState
  | 0, _ => none
  | fuel + 1, info =>
      (aliasLoopOpt (resolveRef al next fuel) info al).map
        (fun s => s.andThen next)

/-- `BrowserFieldPlugin::request_target_is_module_and_equal_alias_key`
from src/plugin/browser_field.rs. -/
def requestTargetIsModuleAndEqualAliasKey (aliasKey : Str) (info : Info) :
    Bool :=
  decide (info.request.target = aliasKey)

/-- `BrowserFieldPlugin::request_path_is_equal_alias_key_path` from
src/plugin/browser_field.rs. `getPath` abstracts `Info::get_path` and
`appendExt` abstracts `Resolver::append_ext_for_path` (info.rs and
resolve.rs are not under src/). -/
def requestPathIsEqualAliasKeyPath (getPath : Info → Str)
    (appendExt : Str → Str → Str) (aliasPath : Str) (info : Info)
    (extensions : List Str) : Bool :=
  let requestPath := getPath info
  decide (aliasPath = requestPath)
    || extensions.any (fun ext =>
        decide (aliasPath = appendExt requestPath ext))

/-- The `should_deal_alias` computation of `BrowserFieldPlugin::apply`
(src/plugin/browser_field.rs lines 40-47). -/
def browserShouldDeal (extensions : List Str) (pkgDirPath : Str)
    (joinPath : Str → Str → Str) (getPath : Info → Str)
    (appendExt : Str → Str → Str) (info : Info) (aliasKey : Str) : Bool :=
  if info.request.kind = .normal then
    requestTargetIsModuleAndEqualAliasKey aliasKey info
  else
    requestPathIsEqualAliasKeyPath getPath appendExt
      (joinPath pkgDirPath aliasKey) info extensions

/-- `BrowserFieldPlugin::apply` from src/plugin/browser_field.rs, as the
loop over the `alias_fields` entries of the enclosing descriptor.
Oracles: `joinPath` for `Path::join`, `getPath` for `Info::get_path`,
`appendExt` for `Resolver::append_ext_for_path` (those live outside
src/), and `resolve` for the recursive `resolver._resolve` call. -/
def browserLoop (extensions : List Str) (pkgDirPath : Str)
    (joinPath : Str → Str → Str) (getPath : Info → Str)
    (appendExt : Str → Str → Str) (resolve : Info → RState) (info : Info) :
    List (Str × AliasKind) → RState
  | [] => .resolving info
  | (aliasKey, aliasTarget) :: rest =>
      let shouldDealAlias : Bool :=
        browserShouldDeal extensions pkgDirPath joinPath getPath appendExt
          info aliasKey
      if !shouldDealAlias then
        browserLoop extensions pkgDirPath joinPath getPath appendExt resolve
          info rest
      else
        match aliasTarget with
        | .target converted =>
            if aliasKey = converted then
              -- pointed itself in `browser` field
              .resolving info
            else
              let st := resolve
                { path := pkgDirPath
                  request := info.request.withTarget converted }
              if st.isFinished then st
              else
                browserLoop extensions pkgDirPath joinPath getPath appendExt
                  resolve info rest
        | .ignored => .success .ignored

/-- `BrowserFieldPlugin::apply` from src/plugin/browser_field.rs
(entry point, including the `options.browser_field` gate). -/
def browserApply (browserField : Bool) (extensions : List Str)
    (aliasFields : List (Str × AliasKind)) (pkgDirPath : Str)
    (joinPath : Str → Str → Str) (getPath : Info → Str)
    (appendExt : Str → Str → Str) (resolve : Info → RState)
    (info : Info) : RState :=
  if ¬browserField then .resolving info
  else
    browserLoop extensions pkgDirPath joinPath getPath appendExt resolve info
      aliasFields

/-- A browser-field entry over which the loop of
`BrowserFieldPlugin::apply` continues to the next entry: either its key
does not match, or it is a non-self-pointing `Target` whose recursive
resolution is not finished. -/
def browserEntryContinues (extensions : List Str) (pkgDirPath : Str)
    (joinPath : Str → Str → Str) (getPath : Info → Str)
    (appendExt : Str → Str → Str) (resolve : Info → RState) (info : Info) :
    Str × AliasKind → Prop
  | (key, tgt) =>
      browserShouldDeal extensions pkgDirPath joinPath getPath appendExt
          info key = false
      ∨ ∃ conv, tgt = .target conv ∧ key ≠ conv
          ∧ (resolve
              { path := pkgDirPath
                request := info.request.withTarget conv }).isFinished
            = false

/-- The descriptor fields `ExportsFieldPlugin` reads (src/description.rs
`PkgJSON`, restricted to `name` and `exports_field_tree`; the compiled
tree type is abstract since map.rs is not under src/). -/
structure PkgJSONView (τ : Type) where
  name : Option Str
  exportsFieldTree : Option τ
deriving Repr

/-- `PkgInfo` from src/description.rs: descriptor plus its directory. -/
structure PkgInfoView (τ : Type) where
  json : PkgJSONView τ
  dirPath : Str
deriving Repr

/-- Modelled from the spec: the `MODULE` constant (`"node_modules"`),
used by `ExportsFieldPlugin::is_in_module`; its defining file is not
under src/ (spec section 4.6, resolve-as-modules walks `node_modules`). -/
def moduleDirName : Str := chars "node_modules"

/-- Rust `str::contains` (substring occurrence). -/
def strContains (pat : Str) : Str → Bool
  | [] => pat.isEmpty
  | c :: rest => pat.isPrefixOf (c :: rest) || strContains pat rest

/-- `ExportsFieldPlugin::is_in_module` from src/plugin/exports_field.rs:
the descriptor directory's display string contains `node_modules`. -/
def isInModule {τ : Type} (pkgInfo : PkgInfoView τ) : Bool :=
  strContains moduleDirName pkgInfo.dirPath

/-- `ExportsFieldPlugin::is_resolve_self` from
src/plugin/exports_field.rs: the request target STARTS WITH the declared
package name. -/
def isResolveSelf {τ : Type} (pkgInfo : PkgInfoView τ) (info : Info) :
    Bool :=
  match pkgInfo.json.name with
  | some pkgName => strStartsWith info.request.target pkgName
  | none => false

/-- The candidate loop of `ExportsFieldPlugin::apply`
(src/plugin/exports_field.rs lines 92-118): try each produced target in
order; a candidate that resolves to a file wins; at the end of the list
the plugin errors with "Package path … is not exported". -/
def exportsCandidateLoop (pkgDirPath : Str) (parseRequest : Str → Request)
    (checkTarget : Str → Bool) (resolve : Info → RState)
    (loadIsFile : Str → Except Err Bool) (getPath : Info → Str)
    (origTarget : Str) : List Str → RState
  | [] =>
      .error (.unexpectedValue
        (chars "Package path " ++ origTarget ++ chars " is not exported"))
  | item :: rest =>
      let req := parseRequest item
      let cinfo : Info := { path := pkgDirPath, request := req }
      if ¬checkTarget cinfo.request.target then
        exportsCandidateLoop pkgDirPath parseRequest checkTarget resolve
          loadIsFile getPath origTarget rest
      else
        match resolve cinfo with
        | .success .ignored => .success .ignored
        | .success (.info i2) =>
            match loadIsFile (getPath i2) with
            | .error e => .error e
            | .ok true => .success (.info i2)
            | .ok false =>
                exportsCandidateLoop pkgDirPath parseRequest checkTarget
                  resolve loadIsFile getPath origTarget rest
        | _ =>
            exportsCandidateLoop pkgDirPath parseRequest checkTarget resolve
              loadIsFile getPath origTarget rest

/-- The `remaining_target` computation of `ExportsFieldPlugin::apply`
(src/plugin/exports_field.rs lines 68-77): attach query and fragment to
the package subpath. -/
def exportsRemainingTarget (info : Info) (subpathTarget : Str) : Str :=
  let query := info.request.query
  let fragment := info.request.fragment
  if ¬query.isEmpty ∨ ¬fragment.isEmpty then
    (if subpathTarget = chars "." then chars "./" else subpathTarget)
      ++ query ++ fragment
  else subpathTarget

/-- The lookup phase of `ExportsFieldPlugin::apply`: attach query and
fragment to the package subpath, run the trie lookup
(`ExportsField::field_process`, abstracted since map.rs is not under
src/), then iterate the candidates. -/
def exportsListPhase {τ : Type} (pkgDirPath : Str)
    (fieldProcess : τ → Str → Except Err (List Str))
    (parseRequest : Str → Request) (checkTarget : Str → Bool)
    (resolve : Info → RState) (loadIsFile : Str → Except Err Bool)
    (getPath : Info → Str) (root : τ) (info : Info) (subpathTarget : Str) :
    RState :=
  let remainingTarget := exportsRemainingTarget info subpathTarget
  match fieldProcess root remainingTarget with
  | .error err => .error err
  | .ok list =>
      exportsCandidateLoop pkgDirPath parseRequest checkTarget resolve
        loadIsFile getPath info.request.target list

/-- `ExportsFieldPlugin::apply` from src/plugin/exports_field.rs.
`pathExists` abstracts `info.path.join(&target).exists()`. The result is
`none` exactly when the source panics: a target starting with `@` that
contains no `/` hits `target.find('/').unwrap()`. -/
def exportsApply {τ : Type} (pkgInfo : PkgInfoView τ)
    (pathExists : Str → Str → Bool)
    (fieldProcess : τ → Str → Except Err (List Str))
    (parseRequest : Str → Request) (checkTarget : Str → Bool)
    (resolve : Info → RState) (loadIsFile : Str → Except Err Bool)
    (getPath : Info → Str) (info : Info) : Option RState :=
  let target := info.request.target
  if info.request.kind ≠ .normal then some (.resolving info)
  else if ¬isInModule pkgInfo ∧ ¬isResolveSelf pkgInfo info then
    some (.resolving info)
  else
    match pkgInfo.json.exportsFieldTree with
    | none => some (.resolving info)
    | some root =>
        let strippedOpt : Option Str :=
          if strStartsWith target (chars "@") then
            (target.findIdx? (fun c => c == 47)).map
              (fun index => target.drop (index + 1))
          else some target
        match strippedOpt with
        | none => none
        | some stripped =>
            match (stripped.findIdx? (fun c => c == 47)).map
                (fun index => stripped.drop index) with
            | some sub =>
                some (exportsListPhase pkgInfo.dirPath fieldProcess
                  parseRequest checkTarget resolve loadIsFile getPath root
                  info (chars "." ++ sub))
            | none =>
                if pathExists info.path target
                    ∨ pkgInfo.json.name = some target then
                  some (exportsListPhase pkgInfo.dirPath fieldProcess
                    parseRequest checkTarget resolve loadIsFile getPath root
                    info (chars "."))
                else some (.failed info)

/-- Modelled from the spec: the outcome of
`CacheFile::read_description_file` for one path (fs.rs is not under
src/). Spec section 4.3: a parsed descriptor, a JSON parse error
(`UnexpectedJson` with the file path), a structural violation
(`UnexpectedValue`), or an I/O "not found" error. -/
inductive DescRead (α : Type)
  | ok (a : α)
  | unexpectedJson (path : Str)
  | unexpectedValue (msg : Str)
  | ioNotFound
deriving DecidableEq, Repr

/-- `Entry::pkg_info` from src/entry.rs, over the parent chain of an
entry (head = the entry's own path, tail = its ancestors; `[]` is past
the root). Paths are lists of components, so `path.ends_with(pkg_name)`
for the single-component `description_file` is a last-component test and
`path.join(pkg_name)` appends a component. `isDir` abstracts
`Entry::is_dir` (a stat), `readDesc` abstracts
`read_description_file`. -/
def pkgInfoChain {α : Type} (descFile : Str) (isDir : List Str → Bool)
    (readDesc : List Str → DescRead α) :
    List (List Str) → Except Err (Option α)
  | [] => .ok none
  | path :: ancestors =>
      let isPkgSuffix := path.getLast? = some descFile
      if isDir path ∨ isPkgSuffix then
        let pkgPath := if isPkgSuffix then path else path ++ [descFile]
        match readDesc pkgPath with
        | .ok a => .ok (some a)
        | .unexpectedJson p => .error (.unexpectedJson p)
        | .unexpectedValue m => .error (.unexpectedValue m)
        | .ioNotFound => pkgInfoChain descFile isDir readDesc ancestors
      else pkgInfoChain descFile isDir readDesc ancestors

/-- The descriptor path `Entry::pkg_info` reads at one level. -/
def pkgPathOf (descFile : Str) (path : List Str) : List Str :=
  if path.getLast? = some descFile then path else path ++ [descFile]

/-- Whether `Entry::pkg_info` attempts a read at one level. -/
def pkgConsidered (descFile : Str) (isDir : List Str → Bool)
    (path : List Str) : Prop :=
  isDir path = true ∨ path.getLast? = some descFile

/-- Whether `Entry::pkg_info` skips a level (no readable descriptor
found there): either the level is not considered at all, or the read
reports I/O "not found". -/
def pkgSkips {α : Type} (descFile : Str) (isDir : List Str → Bool)
    (readDesc : List Str → DescRead α) (path : List Str) : Prop :=
  ¬pkgConsidered descFile isDir path
    ∨ readDesc (pkgPathOf descFile path) = .ioNotFound

/-- The dynamic JSON value tree (`serde_json::Value`; numbers abstracted
to integers — no claim depends on number representation). Objects are
ordered key/value lists with first-occurrence lookup. -/
inductive Json
  | null
  | bool (b : Bool)
  | num (n : Int)
  | str (s : Str)
  | arr (xs : List Json)
  | obj (fields : List (Str × Json))

/-- First-occurrence lookup in a JSON object's field list
(`serde_json::Map::get` / `Value::get`). -/
def lookupJ (fields : List (Str × Json)) (k : Str) : Option Json :=
  match fields with
  | [] => none
  | (k', v) :: rest => if k' = k then some v else lookupJ rest k

/-- Replace the value of the first field named `k`
(`serde_json::Map`'s in-place update through `entry`). -/
def replaceJ (fields : List (Str × Json)) (k : Str) (nv : Json) :
    List (Str × Json) :=
  match fields with
  | [] => []
  | (k', v) :: rest =>
      if k' = k then (k', nv) :: rest else (k', v) :: replaceJ rest k nv

mutual

/-- `merge` from src/tsconfig.rs lines 113-126: objects merge entry-wise
(the extender's entry for a key is merged with the extendee's value for
that key, inserting `Null` first when the key is missing); any other
extender value is replaced only when it is `Null`. -/
def merge : Json → Json → Json
  | .obj a, .obj b => .obj (mergeEntries a b)
  | .null, b => b
  | a, _ => a
termination_by a b => (sizeOf b, 0)
decreasing_by
  all_goals simp_wf
  all_goals first
    | (apply Prod.Lex.left; omega)
    | (apply Prod.Lex.right; omega)

/-- The `for (k, v) in b` loop of `merge`. -/
def mergeEntries (a : List (Str × Json)) :
    List (Str × Json) → List (Str × Json)
  | [] => a
  | (k, v) :: rest => mergeEntries (mergeEntry a k v) rest
termination_by es => (sizeOf es, 2)
decreasing_by
  all_goals simp_wf
  all_goals first
    | (apply Prod.Lex.left; omega)
    | (apply Prod.Lex.right; omega)

/-- One loop step: `merge(a.entry(k).or_insert(Value::Null), v)`. -/
def mergeEntry (a : List (Str × Json)) (k : Str) (v : Json) :
    List (Str × Json) :=
  match lookupJ a k with
  | some av => replaceJ a k (merge av v)
  | none => a ++ [(k, merge Json.null v)]
termination_by (sizeOf v, 1)
decreasing_by
  all_goals simp_wf
  all_goals first
    | (apply Prod.Lex.left; omega)
    | (apply Prod.Lex.right; omega)

end

/-- Whether a JSON value is an object. -/
def Json.isObj : Json → Bool
  | .obj _ => true
  | _ => false

/-- `SideEffects` from src/description.rs. -/
inductive SideEffects
  | bool (b : Bool)
  | array (xs : List Str)

/-- The result of `PkgJSON::parse` (src/description.rs), with the panic
of the `assert!(!b)` on a `true`-valued `browser` entry made explicit as
`assertionFailure` (Rust aborts the thread there; no value is
returned). -/
inductive ParseOutcome (τ ι : Type)
  | ok (name version : Option Str) (aliasFields : List (Str × AliasKind))
      (exportsFieldTree : Option τ) (importsFieldTree : Option ι)
      (sideEffects : Option SideEffects)
  | err (e : Err)
  | assertionFailure

/-- `IndexMap::insert`: update the value in place when the key exists
(keeping its position), otherwise append. -/
def indexMapInsert (m : List (Str × AliasKind)) (k : Str) (v : AliasKind) :
    List (Str × AliasKind) :=
  match m with
  | [] => [(k, v)]
  | (k', v') :: rest =>
      if k' = k then (k', v) :: rest
      else (k', v') :: indexMapInsert rest k v

/-- Whether a JSON value is a string or a boolean (the `browser` values
the source consumes; everything else is skipped). -/
def jsonIsStrOrBool : Json → Bool
  | .bool _ => true
  | .str _ => true
  | _ => false

/-- The `browser` loop of `PkgJSON::parse` (src/description.rs lines
43-54), with `acc` the `alias_fields` map built so far: booleans must be
`false` (`assert!(!b)`) and become `Ignored`, strings become `Target`,
every other value is skipped. `none` models the assertion failure. -/
def browserFieldsOf :
    List (Str × Json) → List (Str × AliasKind) →
      Option (List (Str × AliasKind))
  | [], acc => some acc
  | (k, v) :: rest, acc =>
      match v with
      | .bool b =>
          if b then none
          else browserFieldsOf rest (indexMapInsert acc k .ignored)
      | .str s => browserFieldsOf rest (indexMapInsert acc k (.target s))
      | _ => browserFieldsOf rest acc

/-- The `sideEffects` extraction of `PkgJSON::parse` (src/description.rs
lines 75-101). `filePathDisplay` stands for `file_path.display()` and
`valueDisplay` for the `{value}` formatting in the error message. -/
def sideEffectsOf (filePathDisplay : Str) (valueDisplay : Json → Str)
    (j : Option Json) : Except Err (Option SideEffects) :=
  match j with
  | none => .ok none
  | some v =>
      match v with
      | .bool b => .ok (some (.bool b))
      | .arr xs =>
          match xs.mapM (fun x => match x with | .str s => some s | _ => none)
          with
          | some strs => .ok (some (.array strs))
          | none =>
              .error (.unexpectedValue
                (chars "sideEffects in " ++ filePathDisplay
                  ++ chars " had unexpected value"))
      | _ =>
          .error (.unexpectedValue
            (chars "sideEffects in " ++ filePathDisplay
              ++ chars " had unexpected value " ++ valueDisplay v))

/-- The tail of `PkgJSON::parse` after the `browser` loop
(src/description.rs lines 56-117): exports tree, imports tree, `name`,
`sideEffects`, `version`, assembled in source order with the source's
early returns on errors. -/
def pkgJsonParseRest {τ ι : Type} (buildExports : Json → Except Err τ)
    (buildImports : Json → Except Err ι) (filePathDisplay : Str)
    (valueDisplay : Json → Str) (jget : String → Option Json)
    (aliasFields : List (Str × AliasKind)) : ParseOutcome τ ι :=
  let exportsRes :=
    match jget "exports" with
    | some v => (buildExports v).map some
    | none => .ok none
  match exportsRes with
  | .error e => .err e
  | .ok exportsTree =>
      let importsRes :=
        match jget "imports" with
        | some v => (buildImports v).map some
        | none => .ok none
      match importsRes with
      | .error e => .err e
      | .ok importsTree =>
          let name :=
            match jget "name" with
            | some (.str s) => some s
            | _ => none
          match sideEffectsOf filePathDisplay valueDisplay
              (jget "sideEffects") with
          | .error e => .err e
          | .ok sideEffects =>
              let version :=
                match jget "version" with
                | some (.str s) => some s
                | _ => none
              .ok name version aliasFields exportsTree importsTree
                sideEffects

/-- `PkgJSON::parse` from src/description.rs, over an already-parsed
JSON value (`content` is `none` when `serde_json::from_str` fails, which
the source maps to `UnexpectedJson(file_path)`). `buildExports` and
`buildImports` abstract `ExportsField::build_field_path_tree` and
`ImportsField::build_field_path_tree` (map.rs is not under src/).
Processing order follows the source: browser loop (with its assertion),
exports tree, imports tree, name, sideEffects, version. -/
def pkgJsonParse {τ ι : Type} (buildExports : Json → Except Err τ)
    (buildImports : Json → Except Err ι) (filePathDisplay : Str)
    (valueDisplay : Json → Str) (content : Option Json) :
    ParseOutcome τ ι :=
  match content with
  | none => .err (.unexpectedJson filePathDisplay)
  | some json =>
      let jget := fun (key : String) =>
        match json with
        | .obj fields => lookupJ fields (chars key)
        | _ => none
      let browserRes :=
        match jget "browser" with
        | some (.obj m) => browserFieldsOf m []
        | _ => some []
      match browserRes with
      | none => .assertionFailure
      | some aliasFields =>
          pkgJsonParseRest buildExports buildImports filePathDisplay
            valueDisplay jget aliasFields

/-- `EnforceExtension` from src/options.rs. -/
inductive EnforceExtension
  | enabled
  | disabled
  | auto
deriving DecidableEq, Repr

/-- `Options` from src/options.rs (the fields `Resolver::new` reads or
rewrites, plus `extensions`; the external cache is irrelevant to the
stored options). The source's `alias` field is named `aliasEntries`
here because `alias` is a reserved word in the proof language. -/
structure ROptions where
  extensions : List Str
  enforceExtension : EnforceExtension
  aliasEntries : List (Str × AliasKind)
  preferRelative : Bool
  symlinks : Bool
  descriptionFile : Str
  mainFiles : List Str
  mainFields : List Str
  browserField : Bool
  conditionNames : List Str
  tsconfig : Option Str
deriving Repr

/-- `Options::default` from src/options.rs. -/
def defaultROptions : ROptions :=
  { extensions := [chars ".js", chars ".json", chars ".node"]
    enforceExtension := .auto
    aliasEntries := []
    preferRelative := false
    symlinks := true
    descriptionFile := chars "package.json"
    mainFiles := [chars "index"]
    mainFields := [chars "main"]
    browserField := false
    conditionNames := [chars "node"]
    tsconfig := none }

/-- `Resolver::new` from src/lib.rs lines 93-134, as the transformation
it applies to the stored options: `enforce_extension` is resolved from
`Auto`, a relative `tsconfig` path is joined to the current working
directory after dropping a `./` prefix, and nothing else is touched.
`isAbsolute` and `joinPath` abstract the platform path operations. -/
def resolverNew (isAbsolute : Str → Bool) (joinPath : Str → Str → Str)
    (cwd : Str) (options : ROptions) : ROptions :=
  let enforceExtension :=
    match options.enforceExtension with
    | .auto =>
        if options.extensions.any (fun ext => ext.isEmpty) then
          EnforceExtension.enabled
        else EnforceExtension.disabled
    | e => e
  let tsconfig :=
    match options.tsconfig with
    | some config =>
        if isAbsolute config then some config
        else
          some (joinPath cwd
            (if (chars "./").isPrefixOf config then config.drop 2 else config))
    | none => none
  { options with enforceExtension := enforceExtension, tsconfig := tsconfig }

/-! ## Lemmas and claim theorems -/

theorem twoCharPats_eq :
    absoluteWinPatternLengthTwo = driveLetterCodes.map (fun c => [c, 58]) := by
  decide

theorem restPats_eq :
    absoluteWinPatternRest
      = driveLetterCodes.map (fun c => [c, 58, 92])
        ++ driveLetterCodes.map (fun c => [c, 58, 47]) := by
  decide

theorem mem_driveLetterCodes (c : Nat) :
    c ∈ driveLetterCodes ↔ (97 ≤ c ∧ c ≤ 122) ∨ (65 ≤ c ∧ c ≤ 90) := by
  simp only [driveLetterCodes, List.mem_append, List.mem_map, List.mem_range]
  constructor
  · rintro (⟨k, hk, rfl⟩ | ⟨k, hk, rfl⟩) <;> omega
  · rintro (⟨h1, h2⟩ | ⟨h1, h2⟩)
    · exact Or.inl ⟨c - 97, by omega, by omega⟩
    · exact Or.inr ⟨c - 65, by omega, by omega⟩

theorem mem_twoCharPats (t : Str) :
    t ∈ absoluteWinPatternLengthTwo
      ↔ ∃ c, t = [c, 58] ∧ ((97 ≤ c ∧ c ≤ 122) ∨ (65 ≤ c ∧ c ≤ 90)) := by
  rw [twoCharPats_eq]
  simp only [List.mem_map, mem_driveLetterCodes]
  constructor
  · rintro ⟨c, hc, rfl⟩; exact ⟨c, rfl, hc⟩
  · rintro ⟨c, rfl, hc⟩; exact ⟨c, hc, rfl⟩

theorem mem_restPats (t : Str) :
    t ∈ absoluteWinPatternRest
      ↔ ∃ c sep, t = [c, 58, sep]
          ∧ ((97 ≤ c ∧ c ≤ 122) ∨ (65 ≤ c ∧ c ≤ 90))
          ∧ (sep = 92 ∨ sep = 47) := by
  rw [restPats_eq]
  simp only [List.mem_append, List.mem_map, mem_driveLetterCodes]
  constructor
  · rintro (⟨c, hc, rfl⟩ | ⟨c, hc, rfl⟩)
    · exact ⟨c, 92, rfl, hc, Or.inl rfl⟩
    · exact ⟨c, 47, rfl, hc, Or.inr rfl⟩
  · rintro ⟨c, sep, rfl, hc, rfl | rfl⟩
    · exact Or.inl ⟨c, hc, rfl⟩
    · exact Or.inr ⟨c, hc, rfl⟩

theorem isPrefixOf_three_iff (a b c : Nat) (t : Str) :
    ([a, b, c].isPrefixOf t = true) ↔ ∃ r, t = a :: b :: c :: r := by
  constructor
  · intro h
    rcases t with _ | ⟨x, _ | ⟨y, _ | ⟨z, r⟩⟩⟩ <;>
      simp [List.isPrefixOf] at h
    obtain ⟨rfl, rfl, rfl⟩ := h
    exact ⟨r, rfl⟩
  · rintro ⟨r, rfl⟩
    simp [List.isPrefixOf]

theorem leftmostFindStart_eq_zero_iff (pats : List Str) (t : Str) :
    leftmostFindStart pats t = some 0
      ↔ ∃ p ∈ pats, p.isPrefixOf t = true := by
  have hany : ∀ u : Str, (pats.any (fun p => p.isPrefixOf u) = true)
      ↔ ∃ p ∈ pats, p.isPrefixOf u = true := by
    intro u; simp [List.any_eq_true]
  rcases t with _ | ⟨c, rest⟩
  · rw [leftmostFindStart]
    by_cases h : pats.any (fun p => p.isPrefixOf ([] : Str)) = true
    · rw [if_pos h]
      exact ⟨fun _ => (hany []).mp h, fun _ => rfl⟩
    · rw [if_neg h]
      constructor
      · intro hx; cases hx
      · intro hx; exact absurd ((hany []).mpr hx) h
  · rw [leftmostFindStart]
    by_cases h : pats.any (fun p => p.isPrefixOf (c :: rest)) = true
    · rw [if_pos h]
      exact ⟨fun _ => (hany _).mp h, fun _ => rfl⟩
    · rw [if_neg h]
      constructor
      · intro hm
        exfalso
        rcases hk : leftmostFindStart pats rest with _ | k <;>
          rw [hk] at hm <;> simp at hm
      · intro hx; exact absurd ((hany _).mpr hx) h

theorem isPrefixOf_single_iff (a : Nat) (t : Str) :
    ([a].isPrefixOf t = true) ↔ t.head? = some a := by
  rcases t with _ | ⟨x, r⟩
  · simp [List.isPrefixOf]
  · simp [List.isPrefixOf]
    exact eq_comm

theorem winTail_eq (t : Str) :
    (if t.length = 2 ∧ t ∈ absoluteWinPatternLengthTwo then
       PathKind.absoluteWin
     else
       match leftmostFindStart absoluteWinPatternRest t with
       | some start => if start = 0 then PathKind.absoluteWin
           else PathKind.normal
       | none => PathKind.normal)
    = (match t with
       | [c, col] =>
           if col = 58 ∧ ((97 ≤ c ∧ c ≤ 122) ∨ (65 ≤ c ∧ c ≤ 90)) then
             PathKind.absoluteWin
           else PathKind.normal
       | c :: col :: sep :: _ =>
           if col = 58 ∧ ((97 ≤ c ∧ c ≤ 122) ∨ (65 ≤ c ∧ c ≤ 90))
               ∧ (sep = 92 ∨ sep = 47) then PathKind.absoluteWin
           else PathKind.normal
       | _ => PathKind.normal) := by
  have hnotzero : ∀ u : Str,
      ¬(∃ p ∈ absoluteWinPatternRest, p.isPrefixOf u = true) →
      (match leftmostFindStart absoluteWinPatternRest u with
       | some start => if start = 0 then PathKind.absoluteWin
           else PathKind.normal
       | none => PathKind.normal) = PathKind.normal := by
    intro u hu
    have hz : ¬(leftmostFindStart absoluteWinPatternRest u = some 0) :=
      fun hc => hu ((leftmostFindStart_eq_zero_iff _ _).mp hc)
    rcases hk : leftmostFindStart absoluteWinPatternRest u with _ | k
    · rfl
    · have hkne : k ≠ 0 := fun h => hz (h ▸ hk)
      show (if k = 0 then PathKind.absoluteWin else PathKind.normal) = _
      rw [if_neg hkne]
  rcases t with _ | ⟨c, _ | ⟨col, _ | ⟨sep, r⟩⟩⟩
  · rw [if_neg (by rintro ⟨h, -⟩; simp at h)]
    refine hnotzero [] ?_
    rintro ⟨p, hp, hpre⟩
    obtain ⟨c', s', rfl, -, -⟩ := (mem_restPats p).mp hp
    obtain ⟨r', hr⟩ := (isPrefixOf_three_iff _ _ _ _).mp hpre
    cases hr
  · rw [if_neg (by rintro ⟨h, -⟩; simp at h)]
    refine hnotzero [c] ?_
    rintro ⟨p, hp, hpre⟩
    obtain ⟨c', s', rfl, -, -⟩ := (mem_restPats p).mp hp
    obtain ⟨r', hr⟩ := (isPrefixOf_three_iff _ _ _ _).mp hpre
    cases hr
  · show _ = if col = 58 ∧ ((97 ≤ c ∧ c ≤ 122) ∨ (65 ≤ c ∧ c ≤ 90)) then
        PathKind.absoluteWin else PathKind.normal
    by_cases hm : ([c, col] : Str) ∈ absoluteWinPatternLengthTwo
    · obtain ⟨c', hc', hrange⟩ := (mem_twoCharPats _).mp hm
      obtain ⟨rfl, rfl⟩ : c = c' ∧ col = 58 := by
        injection hc' with h1 h2; injection h2 with h2 h3
        exact ⟨h1, h2⟩
      rw [if_pos ⟨rfl, hm⟩, if_pos ⟨rfl, hrange⟩]
    · have hspec : ¬(col = 58 ∧ ((97 ≤ c ∧ c ≤ 122) ∨ (65 ≤ c ∧ c ≤ 90)))
        := by
        rintro ⟨rfl, hr⟩
        exact hm ((mem_twoCharPats _).mpr ⟨c, rfl, hr⟩)
      rw [if_neg (by rintro ⟨-, h⟩; exact hm h), if_neg hspec]
      refine hnotzero [c, col] ?_
      rintro ⟨p, hp, hpre⟩
      obtain ⟨c', s', rfl, -, -⟩ := (mem_restPats p).mp hp
      obtain ⟨r', hr⟩ := (isPrefixOf_three_iff _ _ _ _).mp hpre
      injection hr with h1 h2; injection h2 with h2 h3; cases h3
  · show _ = if col = 58 ∧ ((97 ≤ c ∧ c ≤ 122) ∨ (65 ≤ c ∧ c ≤ 90))
        ∧ (sep = 92 ∨ sep = 47) then PathKind.absoluteWin
      else PathKind.normal
    rw [if_neg (by rintro ⟨h, -⟩; simp at h)]
    by_cases hw : col = 58 ∧ ((97 ≤ c ∧ c ≤ 122) ∨ (65 ≤ c ∧ c ≤ 90))
        ∧ (sep = 92 ∨ sep = 47)
    · obtain ⟨rfl, hrange, hsep⟩ := hw
      have hz : leftmostFindStart absoluteWinPatternRest
          (c :: 58 :: sep :: r) = some 0 := by
        rw [leftmostFindStart_eq_zero_iff]
        exact ⟨[c, 58, sep],
          (mem_restPats _).mpr ⟨c, sep, rfl, hrange, hsep⟩,
          (isPrefixOf_three_iff _ _ _ _).mpr ⟨r, rfl⟩⟩
      rw [hz]
      show (if (0 : Nat) = 0 then PathKind.absoluteWin else PathKind.normal)
        = _
      rw [if_pos rfl, if_pos ⟨rfl, hrange, hsep⟩]
    · rw [if_neg hw]
      refine hnotzero (c :: col :: sep :: r) ?_
      rintro ⟨p, hp, hpre⟩
      obtain ⟨c', s', rfl, hrange, hsep⟩ := (mem_restPats p).mp hp
      obtain ⟨r', hr⟩ := (isPrefixOf_three_iff _ _ _ _).mp hpre
      obtain ⟨rfl, rfl, rfl⟩ : c = c' ∧ col = 58 ∧ sep = s' := by
        injection hr with h1 h2; injection h2 with h2 h3
        injection h3 with h3 h4
        exact ⟨h1, h2, h3⟩
      exact hw ⟨rfl, hrange, hsep⟩

/-- C6: the path-kind classifier of src/kind.rs applies exactly the
claim's rules in the claim's order: empty maps to Empty; the fixed
builtin set to BuiltinModule; leading `#` to Internal; leading `/` to
AbsolutePosix; `.`, `..`, `./…`, `../…` to Relative; a drive letter plus
`:` alone or followed by `\` or `/` to AbsoluteWindows; anything else to
Normal. -/
theorem c6_get_target_kind_follows_spec (t : Str) :
    getTargetKind t = getTargetKindSpec t := by
  rw [getTargetKind.eq_def, getTargetKindSpec.eq_def]
  have e1 : (t.isEmpty = true) ↔ (t = []) := by
    cases t <;> simp
  have e2 : (isBuildInModule t = true) ↔ t ∈ builtInModuleList := by
    simp [isBuildInModule, List.contains_iff_exists_mem_beq]
  have e3 : (strStartsWith t (chars "#") = true) ↔ t.head? = some 35 := by
    rw [show chars "#" = [35] from rfl, strStartsWith, isPrefixOf_single_iff]
  have e4 : (strStartsWith t (chars "/") = true) ↔ t.head? = some 47 := by
    rw [show chars "/" = [47] from rfl, strStartsWith, isPrefixOf_single_iff]
  have e5 :
      (t = chars "." ∨ strStartsWith t (chars "./") = true
          ∨ strStartsWith t (chars "../") = true ∨ t = chars "..")
        ↔ (t = [46] ∨ t = [46, 46] ∨ [46, 47].isPrefixOf t = true
            ∨ [46, 46, 47].isPrefixOf t = true) := by
    rw [show chars "." = [46] from rfl, show chars ".." = [46, 46] from rfl,
      show chars "./" = [46, 47] from rfl,
      show chars "../" = [46, 46, 47] from rfl, strStartsWith, strStartsWith]
    tauto
  simp only [e1, e2, e3, e4, e5]
  by_cases h1 : t = []
  · rw [if_pos h1, if_pos h1]
  rw [if_neg h1, if_neg h1]
  by_cases h2 : t ∈ builtInModuleList
  · rw [if_pos h2, if_pos h2]
  rw [if_neg h2, if_neg h2]
  by_cases h3 : t.head? = some 35
  · rw [if_pos h3, if_pos h3]
  rw [if_neg h3, if_neg h3]
  by_cases h4 : t.head? = some 47
  · rw [if_pos h4, if_pos h4]
  rw [if_neg h4, if_neg h4]
  by_cases h5 : t = [46] ∨ t = [46, 46] ∨ [46, 47].isPrefixOf t = true
      ∨ [46, 46, 47].isPrefixOf t = true
  · rw [if_pos h5, if_pos h5]
  rw [if_neg h5, if_neg h5]
  exact winTail_eq t

theorem aliasLoopPure_eq_findSome (resolve : Info → RState) (info : Info)
    (es : List (Str × AliasKind)) :
    aliasLoopPure resolve info es
      = (es.findSome? (aliasEntryStep resolve info)).getD (.resolving info)
    := by
  induction es with
  | nil => rfl
  | cons e rest ih =>
      obtain ⟨f, k⟩ := e
      rw [List.findSome?_cons]
      by_cases hm : info.request.target = f
          ∨ strStartsWith info.request.target (f ++ chars "/") = true
      · rcases k with dst | _
        · by_cases hs : strStartsWith info.request.target dst = true
          · simp [aliasLoopPure, aliasEntryStep, hm, hs, ih]
          · by_cases hf : (resolve
                { path := info.path
                  request := info.request.withTarget
                    (replaceFirst f dst info.request.target) }).isFinished
                = true
            · simp [aliasLoopPure, aliasEntryStep, hm, hs, hf]
            · simp [aliasLoopPure, aliasEntryStep, hm, hs, hf, ih]
        · simp [aliasLoopPure, aliasEntryStep, hm]
      · rcases k with dst | _ <;>
          simp [aliasLoopPure, aliasEntryStep, hm, ih]

/-- C2 counterexample: with the single alias `a → b` and a target `a`,
the source recurses on the rewritten target `b` (its cycle guard tests
the ORIGINAL target against `b`), while the claim's algorithm — skip
when the REWRITTEN target still begins with `to` — would always skip,
because the rewritten target always begins with `to`. At this concrete
input the two disagree. -/
theorem c2_counterexample :
    aliasApply [(chars "a", .target (chars "b"))]
        (fun i => .success (.info i))
        { path := chars "/r"
          request :=
            { target := chars "a", query := [], fragment := []
              kind := .normal } }
      = .success (.info
          { path := chars "/r"
            request :=
              { target := chars "b", query := [], fragment := []
                kind := .normal } })
    ∧ aliasApplyClaim [(chars "a", .target (chars "b"))]
        (fun i => .success (.info i))
        { path := chars "/r"
          request :=
            { target := chars "a", query := [], fragment := []
              kind := .normal } }
      = .resolving
          { path := chars "/r"
            request :=
              { target := chars "a", query := [], fragment := []
                kind := .normal } } := by
  constructor <;> decide

/-- C2 (amended): the Alias stage iterates entries in insertion order;
an entry `(from, to)` fires iff `target == from` or `target` begins with
`from + "/"`; on `Target(to)` it rewrites the first occurrence of `from`
to `to`, except that it skips the entry (without recursing) when the
ORIGINAL target begins with `to`; the first entry (in insertion order)
that produces a finished outcome or an `Ignored` match wins, and an
earlier matching entry is tried before any later one. -/
theorem c2_alias_stage_amended (al : List (Str × AliasKind))
    (resolve : Info → RState) (info : Info) :
    aliasApply al resolve info = aliasApplyAmended al resolve info := by
  rw [aliasApply, aliasApplyAmended, aliasLoopPure_eq_findSome]

theorem resolveLoop_eq_aliasLoopPure (al : List (Str × AliasKind))
    (next : Info → RState) (depth : Nat) (info : Info)
    (es : List (Str × AliasKind)) :
    resolveLoop al next depth info es
      = aliasLoopPure (resolveModel al next depth) info es := by
  induction es with
  | nil => rw [resolveLoop, aliasLoopPure]
  | cons e rest ih =>
      obtain ⟨f, k⟩ := e
      rcases k with dst | _ <;>
        simp only [resolveLoop, aliasLoopPure, ih]

theorem resolveModel_eq_resolveFuel (al : List (Str × AliasKind))
    (next : Info → RState) (d : Nat) (info : Info) :
    resolveModel al next d info = resolveFuel al next (126 - d) info := by
  have H : ∀ f, ∀ d info, 126 - d = f →
      resolveModel al next d info = resolveFuel al next f info := by
    intro f
    induction f using Nat.strong_induction_on with
    | _ f ih =>
      intro d info hf
      rw [resolveModel]
      by_cases hd : 127 ≤ d + 1
      · rw [if_pos hd]
        have hf0 : f = 0 := by omega
        subst hf0
        rfl
      · rw [if_neg hd]
        obtain ⟨f', rfl⟩ : ∃ f', f = f' + 1 := ⟨f - 1, by omega⟩
        rw [resolveLoop_eq_aliasLoopPure]
        have hrec : resolveModel al next (d + 1)
            = resolveFuel al next f' := by
          funext i
          exact ih f' (by omega) (d + 1) i (by omega)
        rw [hrec]
        rfl
  exact H (126 - d) d info rfl

theorem resolveFuel_rel_resolveRef (al : List (Str × AliasKind))
    (next : Info → RState)
    (hnext : ∀ i, next i ≠ RState.error .overflow) :
    ∀ f info,
      (resolveRef al next f info = none →
        resolveFuel al next f info = .error .overflow)
      ∧ ∀ s, resolveRef al next f info = some s →
          resolveFuel al next f info = s ∧ s ≠ .error .overflow := by
  intro f
  induction f with
  | zero =>
      intro info
      refine ⟨fun _ => rfl, fun s hs => ?_⟩
      rw [resolveRef] at hs
      cases hs
  | succ f ih =>
      intro info
      have hloop : ∀ es info₂,
          (aliasLoopOpt (resolveRef al next f) info₂ es = none →
            aliasLoopPure (resolveFuel al next f) info₂ es
              = .error .overflow)
          ∧ ∀ s, aliasLoopOpt (resolveRef al next f) info₂ es = some s →
              aliasLoopPure (resolveFuel al next f) info₂ es = s
              ∧ s ≠ .error .overflow := by
        intro es
        induction es with
        | nil =>
            intro info₂
            refine ⟨fun h => ?_, fun s hs => ?_⟩
            · rw [aliasLoopOpt] at h; cases h
            · rw [aliasLoopOpt] at hs
              injection hs with hs
              subst hs
              exact ⟨rfl, by intro h; cases h⟩
        | cons e rest ihes =>
            intro info₂
            obtain ⟨f₀, k⟩ := e
            by_cases hm : info₂.request.target = f₀
                ∨ strStartsWith info₂.request.target (f₀ ++ chars "/")
                  = true
            · rcases k with dst | _
              · by_cases hs : strStartsWith info₂.request.target dst = true
                · refine ⟨fun h => ?_, fun s hsm => ?_⟩
                  · simp only [aliasLoopOpt, if_pos hm, if_pos hs] at h
                    simp only [aliasLoopPure, if_pos hm, if_pos hs]
                    exact (ihes info₂).1 h
                  · simp only [aliasLoopOpt, if_pos hm, if_pos hs] at hsm
                    simp only [aliasLoopPure, if_pos hm, if_pos hs]
                    exact (ihes info₂).2 s hsm
                · rcases hrec : resolveRef al next f
                    { path := info₂.path
                      request := info₂.request.withTarget
                        (replaceFirst f₀ dst info₂.request.target) }
                    with _ | st
                  · have hov := (ih _).1 hrec
                    refine ⟨fun _ => ?_, fun s hsm => ?_⟩
                    · simp only [aliasLoopPure, if_pos hm, if_neg hs]
                      rw [hov]
                      rfl
                    · simp only [aliasLoopOpt, if_pos hm, if_neg hs,
                        hrec] at hsm
                      cases hsm
                  · obtain ⟨hst, hstne⟩ := (ih _).2 st hrec
                    by_cases hfin : st.isFinished = true
                    · refine ⟨fun h => ?_, fun s hsm => ?_⟩
                      · simp only [aliasLoopOpt, if_pos hm, if_neg hs,
                          hrec, if_pos hfin] at h
                        cases h
                      · simp only [aliasLoopOpt, if_pos hm, if_neg hs,
                          hrec, if_pos hfin] at hsm
                        injection hsm with hsm
                        subst hsm
                        simp only [aliasLoopPure, if_pos hm, if_neg hs]
                        rw [hst, if_pos hfin]
                        exact ⟨rfl, hstne⟩
                    · refine ⟨fun h => ?_, fun s hsm => ?_⟩
                      · simp only [aliasLoopOpt, if_pos hm, if_neg hs,
                          hrec, if_neg hfin] at h
                        simp only [aliasLoopPure, if_pos hm, if_neg hs]
                        rw [hst, if_neg hfin]
                        exact (ihes info₂).1 h
                      · simp only [aliasLoopOpt, if_pos hm, if_neg hs,
                          hrec, if_neg hfin] at hsm
                        simp only [aliasLoopPure, if_pos hm, if_neg hs]
                        rw [hst, if_neg hfin]
                        exact (ihes info₂).2 s hsm
              · refine ⟨fun h => ?_, fun s hsm => ?_⟩
                · simp only [aliasLoopOpt, if_pos hm] at h
                  cases h
                · simp only [aliasLoopOpt, if_pos hm] at hsm
                  injection hsm with hsm
                  subst hsm
                  refine ⟨?_, by intro h; cases h⟩
                  simp only [aliasLoopPure, if_pos hm]
            · refine ⟨fun h => ?_, fun s hsm => ?_⟩
              · rcases k with dst | _ <;>
                  [skip; skip] <;>
                  · simp only [aliasLoopOpt, if_neg hm] at h
                    simp only [aliasLoopPure, if_neg hm]
                    exact (ihes info₂).1 h
              · rcases k with dst | _ <;>
                  [skip; skip] <;>
                  · simp only [aliasLoopOpt, if_neg hm] at hsm
                    simp only [aliasLoopPure, if_neg hm]
                    exact (ihes info₂).2 s hsm
      refine ⟨fun h => ?_, fun s hs => ?_⟩
      · rw [resolveRef] at h
        rw [resolveFuel]
        rcases hl : aliasLoopOpt (resolveRef al next f) info al with _ | s₀
        · rw [(hloop al info).1 hl]
          rfl
        · rw [hl] at h
          cases h
      · rw [resolveRef] at hs
        rw [resolveFuel]
        rcases hl : aliasLoopOpt (resolveRef al next f) info al with _ | s₀
        · rw [hl] at hs
          cases hs
        · rw [hl] at hs
          injection hs with hs
          obtain ⟨hps, hpne⟩ := (hloop al info).2 s₀ hl
          rw [hps, ← hs]
          constructor
          · rfl
          · rcases s₀ with i | r | i | e
            · exact hnext i
            · intro h; cases h
            · intro h; cases h
            · intro h
              injection h with h
              subst h
              exact hpne rfl

/-- C3 counterexample: the claim's own example of a rewriting cycle —
two aliases mapping to each other (`./e → ./d`, `./d → ./e`, the exact
cycle of the repository's test suite) — does NOT return a non-Overflow
outcome: with every later pipeline stage declining (`Failed`), `_resolve`
from depth 0 returns `Error::Overflow`, because each rewrite recurses and
the depth counter reaches 127. -/
theorem c3_counterexample :
    resolveModel
        [(chars "./e", .target (chars "./d")),
         (chars "./d", .target (chars "./e"))]
        (fun i => .failed i) 0
        { path := chars "/a"
          request :=
            { target := chars "./e", query := [], fragment := []
              kind := .relative } }
      = .error .overflow := by
  rw [resolveModel_eq_resolveFuel]
  set_option maxRecDepth 20000 in decide

/-- C3 (amended): the depth counter is a hard bound of 127 nested
`_resolve` calls. A rewriting chain that COMPLETES within nesting depth
126 (the reference semantics `resolveRef` with the remaining budget
`126 - depth` produces an outcome `s`) returns exactly that non-Overflow
outcome; a call whose rewriting does not complete within the budget —
in particular any alias cycle, and any call entered at nesting depth
127 — returns `Error::Overflow` instead of recursing further. -/
theorem c3_depth_limit_amended (al : List (Str × AliasKind))
    (next : Info → RState) (d : Nat) (info : Info)
    (hnext : ∀ i, next i ≠ RState.error .overflow) :
    (resolveRef al next (126 - d) info = none →
        resolveModel al next d info = .error .overflow)
    ∧ ∀ s, resolveRef al next (126 - d) info = some s →
        resolveModel al next d info = s ∧ s ≠ .error .overflow := by
  rw [resolveModel_eq_resolveFuel]
  exact resolveFuel_rel_resolveRef al next hnext (126 - d) info

/-- Witness for the amended C3 at a concrete input: with no aliases and
a declining tail pipeline, the rewriting completes immediately within
the budget and the resolver returns that clean (non-Overflow) outcome. -/
theorem c3_depth_limit_amended_witness :
    resolveModel [] (fun i => .failed i) 0
        { path := chars "/a"
          request :=
            { target := chars "./x", query := [], fragment := []
              kind := .relative } }
      = .failed
          { path := chars "/a"
            request :=
              { target := chars "./x", query := [], fragment := []
                kind := .relative } } :=
  ((c3_depth_limit_amended [] (fun i => .failed i) 0
      { path := chars "/a"
        request :=
          { target := chars "./x", query := [], fragment := []
            kind := .relative } }
      (fun _ h => RState.noConfusion h)).2 _ (by decide)).1

theorem findSome?_append_of_forall_none {α β : Type} (g : α → Option β)
    (l₁ l₂ : List α) (h : ∀ x ∈ l₁, g x = none) :
    (l₁ ++ l₂).findSome? g = l₂.findSome? g := by
  induction l₁ with
  | nil => rfl
  | cons x rest ih =>
      rw [List.cons_append, List.findSome?_cons,
        h x (List.mem_cons_self x rest)]
      exact ih (fun y hy => h y (List.mem_cons_of_mem x hy))

theorem browserLoop_append_of_continues (extensions : List Str)
    (pkgDirPath : Str) (joinPath : Str → Str → Str) (getPath : Info → Str)
    (appendExt : Str → Str → Str) (resolve : Info → RState) (info : Info)
    (pre es : List (Str × AliasKind))
    (h : ∀ e ∈ pre, browserEntryContinues extensions pkgDirPath joinPath
        getPath appendExt resolve info e) :
    browserLoop extensions pkgDirPath joinPath getPath appendExt resolve
        info (pre ++ es)
      = browserLoop extensions pkgDirPath joinPath getPath appendExt resolve
          info es := by
  induction pre with
  | nil => rfl
  | cons e rest ih =>
      obtain ⟨key, tgt⟩ := e
      have hcont := h (key, tgt) (List.mem_cons_self _ rest)
      have htail := fun y hy => h y (List.mem_cons_of_mem (key, tgt) hy)
      rw [browserEntryContinues] at hcont
      rcases hcont with hkey | ⟨conv, htgt, hne, hnf⟩
      · rw [List.cons_append]
        rw [show browserLoop extensions pkgDirPath joinPath getPath
            appendExt resolve info ((key, tgt) :: (rest ++ es))
            = browserLoop extensions pkgDirPath joinPath getPath appendExt
                resolve info (rest ++ es) from by
          rcases tgt with conv | _ <;> simp [browserLoop, hkey]]
        exact ih htail
      · subst htgt
        rw [List.cons_append]
        rw [show browserLoop extensions pkgDirPath joinPath getPath
            appendExt resolve info ((key, .target conv) :: (rest ++ es))
            = browserLoop extensions pkgDirPath joinPath getPath appendExt
                resolve info (rest ++ es) from by
          by_cases hsd : browserShouldDeal extensions pkgDirPath joinPath
              getPath appendExt info key = true
          · simp [browserLoop, hsd, hne, hnf]
          · simp only [Bool.not_eq_true] at hsd
            simp [browserLoop, hsd]]
        exact ih htail

/-- C4: an `Ignored` alias-map entry or browser-field entry whose key
matches immediately yields `Success(Ignored)` — every earlier alias
entry that contributes nothing is passed over, every earlier matching
browser entry over which the loop continues is passed over, and entries
after the `Ignored` one are never consulted — and once a state is
`Success` or `Error`, the pipeline's `then` combinator passes it through
unchanged, so all subsequent stages are short-circuited. -/
theorem c4_ignored_short_circuits
    (resolve : Info → RState) (info : Info)
    (pre post : List (Str × AliasKind)) (f : Str)
    (hpre : ∀ e ∈ pre, aliasEntryStep resolve info e = none)
    (hmatch : info.request.target = f
      ∨ strStartsWith info.request.target (f ++ chars "/") = true)
    (extensions : List Str) (pkgDirPath : Str)
    (joinPath : Str → Str → Str) (getPath : Info → Str)
    (appendExt : Str → Str → Str) (bresolve : Info → RState) (binfo : Info)
    (bpre bpost : List (Str × AliasKind)) (bkey : Str)
    (hbpre : ∀ e ∈ bpre, browserEntryContinues extensions pkgDirPath
        joinPath getPath appendExt bresolve binfo e)
    (hbmatch : browserShouldDeal extensions pkgDirPath joinPath getPath
        appendExt binfo bkey = true) :
    aliasApply (pre ++ (f, .ignored) :: post) resolve info
      = .success .ignored
    ∧ browserApply true extensions (bpre ++ (bkey, .ignored) :: bpost)
        pkgDirPath joinPath getPath appendExt bresolve binfo
      = .success .ignored
    ∧ ∀ (g : Info → RState) (r : ResolveResult) (e : Err),
        (RState.success r).andThen g = .success r
        ∧ (RState.error e).andThen g = .error e := by
  refine ⟨?_, ?_, fun g r e => ⟨rfl, rfl⟩⟩
  · rw [aliasApply, aliasLoopPure_eq_findSome,
      findSome?_append_of_forall_none _ _ _ hpre, List.findSome?_cons]
    have hstep : aliasEntryStep resolve info (f, .ignored)
        = some (.success .ignored) := by
      simp [aliasEntryStep, hmatch]
    rw [hstep]
    rfl
  · rw [browserApply]
    rw [if_neg (by simp)]
    rw [browserLoop_append_of_continues _ _ _ _ _ _ _ _ _ hbpre]
    simp only [browserLoop, hbmatch, Bool.not_true, Bool.false_eq_true,
      if_false]

/-- Witness for C4 at concrete inputs: a matching `Ignored` alias entry
and a matching `Ignored` browser entry each produce `Success(Ignored)`. -/
theorem c4_ignored_short_circuits_witness :
    aliasApply [(chars "m", .ignored)] (fun i => .failed i)
        { path := chars "/r"
          request :=
            { target := chars "m", query := [], fragment := []
              kind := .normal } }
      = .success .ignored
    ∧ browserApply true [] [(chars "b", .ignored)] (chars "/p")
        (fun a b => a ++ b) (fun i => i.path) (fun p e => p ++ e)
        (fun i => .failed i)
        { path := chars "/p"
          request :=
            { target := chars "b", query := [], fragment := []
              kind := .normal } }
      = .success .ignored := by
  have h := c4_ignored_short_circuits (fun i => .failed i)
    { path := chars "/r"
      request :=
        { target := chars "m", query := [], fragment := []
          kind := .normal } }
    [] [] (chars "m") (by simp) (by decide)
    [] (chars "/p") (fun a b => a ++ b) (fun i => i.path)
    (fun p e => p ++ e) (fun i => .failed i)
    { path := chars "/p"
      request :=
        { target := chars "b", query := [], fragment := []
          kind := .normal } }
    [] [] (chars "b") (by simp) (by decide)
  exact ⟨h.1, h.2.1⟩

theorem exportsCandidateLoop_all_fail (pkgDirPath : Str)
    (parseRequest : Str → Request) (checkTarget : Str → Bool)
    (resolve : Info → RState) (loadIsFile : Str → Except Err Bool)
    (getPath : Info → Str) (origTarget : Str) (L : List Str)
    (hfail : ∀ item ∈ L, checkTarget (parseRequest item).target = true →
      match resolve { path := pkgDirPath, request := parseRequest item }
      with
      | .success .ignored => False
      | .success (.info i2) => loadIsFile (getPath i2) = .ok false
      | _ => True) :
    exportsCandidateLoop pkgDirPath parseRequest checkTarget resolve
        loadIsFile getPath origTarget L
      = .error (.unexpectedValue
          (chars "Package path " ++ origTarget
            ++ chars " is not exported")) := by
  induction L with
  | nil => rfl
  | cons item rest ih =>
      have hhead := hfail item (List.mem_cons_self _ rest)
      have htail := ih (fun y hy => hfail y (List.mem_cons_of_mem item hy))
      by_cases hchk : checkTarget (parseRequest item).target = true
      · have hh := hhead hchk
        rcases hres : resolve
            { path := pkgDirPath, request := parseRequest item }
            with i | r | i | e
        · simp only [exportsCandidateLoop, hchk, Bool.not_true,
            Bool.false_eq_true, if_false, hres]
          exact htail
        · rcases r with i2 | _
          · rw [hres] at hh
            simp only at hh
            simp only [exportsCandidateLoop, hchk, Bool.not_true,
              Bool.false_eq_true, if_false, hres, hh]
            exact htail
          · rw [hres] at hh
            simp only at hh
        · simp only [exportsCandidateLoop, hchk, Bool.not_true,
            Bool.false_eq_true, if_false, hres]
          exact htail
        · simp only [exportsCandidateLoop, hchk, Bool.not_true,
            Bool.false_eq_true, if_false, hres]
          exact htail
      · simp only [Bool.not_eq_true] at hchk
        simp only [exportsCandidateLoop, hchk, Bool.not_false, if_true]
        exact htail

theorem exportsListPhase_all_fail {τ : Type} (pkgDirPath : Str)
    (fieldProcess : τ → Str → Except Err (List Str))
    (parseRequest : Str → Request) (checkTarget : Str → Bool)
    (resolve : Info → RState) (loadIsFile : Str → Except Err Bool)
    (getPath : Info → Str) (root : τ) (info : Info) (subTarget : Str)
    (L : List Str)
    (hlist : fieldProcess root (exportsRemainingTarget info subTarget)
      = .ok L)
    (hfail : ∀ item ∈ L, checkTarget (parseRequest item).target = true →
      match resolve { path := pkgDirPath, request := parseRequest item }
      with
      | .success .ignored => False
      | .success (.info i2) => loadIsFile (getPath i2) = .ok false
      | _ => True) :
    exportsListPhase pkgDirPath fieldProcess parseRequest checkTarget
        resolve loadIsFile getPath root info subTarget
      = .error (.unexpectedValue
          (chars "Package path " ++ info.request.target
            ++ chars " is not exported")) := by
  simp only [exportsListPhase]
  rw [hlist]
  exact exportsCandidateLoop_all_fail pkgDirPath parseRequest checkTarget
    resolve loadIsFile getPath info.request.target L hfail

/-- C1: when a package has an `exports` tree and a Normal-kind request
reaches the subpath lookup (it has a subpath, or it names the package
itself), and no candidate the lookup produces resolves to a file, the
plugin returns `UnexpectedValue("Package path <target> is not
exported")`. The statement quantifies over arbitrary `pathExists` and
`loadIsFile` oracles: the error is returned even when the requested file
exists on disk inside the package. -/
theorem c1_exports_authoritative {τ : Type} (pkgInfo : PkgInfoView τ)
    (pathExists : Str → Str → Bool)
    (fieldProcess : τ → Str → Except Err (List Str))
    (parseRequest : Str → Request) (checkTarget : Str → Bool)
    (resolve : Info → RState) (loadIsFile : Str → Except Err Bool)
    (getPath : Info → Str) (info : Info) (root : τ) (stripped : Str)
    (subTarget : Str) (L : List Str)
    (hkind : info.request.kind = .normal)
    (hgate : isInModule pkgInfo = true ∨ isResolveSelf pkgInfo info = true)
    (htree : pkgInfo.json.exportsFieldTree = some root)
    (hstrip : (if strStartsWith info.request.target (chars "@") = true then
        (info.request.target.findIdx? (fun c => c == 47)).map
          (fun index => info.request.target.drop (index + 1))
      else some info.request.target) = some stripped)
    (hsub : match (stripped.findIdx? (fun c => c == 47)).map
        (fun index => stripped.drop index) with
      | some sub => subTarget = chars "." ++ sub
      | none => (pathExists info.path info.request.target = true
            ∨ pkgInfo.json.name = some info.request.target)
          ∧ subTarget = chars ".")
    (hlist : fieldProcess root (exportsRemainingTarget info subTarget)
      = .ok L)
    (hfail : ∀ item ∈ L, checkTarget (parseRequest item).target = true →
      match resolve
          { path := pkgInfo.dirPath, request := parseRequest item } with
      | .success .ignored => False
      | .success (.info i2) => loadIsFile (getPath i2) = .ok false
      | _ => True) :
    exportsApply pkgInfo pathExists fieldProcess parseRequest checkTarget
        resolve loadIsFile getPath info
      = some (.error (.unexpectedValue
          (chars "Package path " ++ info.request.target
            ++ chars " is not exported"))) := by
  rw [exportsApply]
  rw [if_neg (by simp [hkind])]
  rw [if_neg (by
    rintro ⟨h1, h2⟩
    rcases hgate with hg | hg
    · simp [hg] at h1
    · simp [hg] at h2)]
  rw [htree]
  simp only
  rw [hstrip]
  simp only
  rcases hidx : (stripped.findIdx? (fun c => c == 47)).map
      (fun index => stripped.drop index) with _ | sub
  · rw [hidx] at hsub
    obtain ⟨hpe, hsubT⟩ := hsub
    subst hsubT
    show (if pathExists info.path info.request.target = true
        ∨ pkgInfo.json.name = some info.request.target then _ else _) = _
    rw [if_pos hpe]
    exact congrArg some (exportsListPhase_all_fail _ _ _ _ _ _ _ _ _ _ _
      hlist hfail)
  · rw [hidx] at hsub
    subst hsub
    exact congrArg some (exportsListPhase_all_fail _ _ _ _ _ _ _ _ _ _ _
      hlist hfail)

/-- Witness for C1 at a concrete input: a package `pkg` with an
`exports` tree whose lookup returns no candidates; the request
`pkg/x` fails with the exported-path error even though the `pathExists`
oracle reports every file as existing. -/
theorem c1_exports_authoritative_witness :
    exportsApply (τ := Unit)
        { json := { name := some (chars "pkg"), exportsFieldTree := some () }
          dirPath := chars "/proj/node_modules/pkg" }
        (fun _ _ => true) (fun _ _ => .ok [])
        (fun s => { target := s, query := [], fragment := []
                    kind := .normal })
        (fun _ => true) (fun i => .failed i) (fun _ => .ok true)
        (fun i => i.path)
        { path := chars "/proj"
          request :=
            { target := chars "pkg/x", query := [], fragment := []
              kind := .normal } }
      = some (.error (.unexpectedValue
          (chars "Package path " ++ chars "pkg/x"
            ++ chars " is not exported"))) := by
  apply c1_exports_authoritative _ _ _ _ _ _ _ _ _ () (chars "pkg/x")
    (chars "./x") []
  · rfl
  · left; decide
  · rfl
  · rfl
  · show chars "./x" = chars "." ++ chars "/x"
    rfl
  · rfl
  · intro item h; cases h

theorem exportsCandidateLoop_ne_resolving (pkgDirPath : Str)
    (parseRequest : Str → Request) (checkTarget : Str → Bool)
    (resolve : Info → RState) (loadIsFile : Str → Except Err Bool)
    (getPath : Info → Str) (origTarget : Str) :
    ∀ (L : List Str) (i : Info),
      exportsCandidateLoop pkgDirPath parseRequest checkTarget resolve
          loadIsFile getPath origTarget L
        ≠ .resolving i := by
  intro L
  induction L with
  | nil => intro i h; exact RState.noConfusion h
  | cons item rest ih =>
      intro i h
      simp only [exportsCandidateLoop] at h
      by_cases hchk : checkTarget (parseRequest item).target = true
      · rw [if_neg (by simp [hchk])] at h
        split at h
        · exact RState.noConfusion h
        · split at h
          · exact RState.noConfusion h
          · exact RState.noConfusion h
          · exact ih i h
        · exact ih i h
      · rw [if_pos (by simp [hchk])] at h
        exact ih i h

theorem exportsListPhase_ne_resolving {τ : Type} (pkgDirPath : Str)
    (fieldProcess : τ → Str → Except Err (List Str))
    (parseRequest : Str → Request) (checkTarget : Str → Bool)
    (resolve : Info → RState) (loadIsFile : Str → Except Err Bool)
    (getPath : Info → Str) (root : τ) (info : Info) (subTarget : Str)
    (i : Info) :
    exportsListPhase pkgDirPath fieldProcess parseRequest checkTarget
        resolve loadIsFile getPath root info subTarget
      ≠ .resolving i := by
  simp only [exportsListPhase]
  rcases hfp : fieldProcess root (exportsRemainingTarget info subTarget)
      with e | L
  · intro h; exact RState.noConfusion h
  · exact exportsCandidateLoop_ne_resolving pkgDirPath parseRequest
      checkTarget resolve loadIsFile getPath info.request.target L i

/-- C8 counterexample: a package named `foo` (outside `node_modules`,
with an `exports` tree) and the request `foobar/x`, whose bare module
head `foobar` differs from `foo` but has `foo` as a prefix. The claim
says self-reference must NOT trigger (the plugin should pass through as
`Resolving`); the source's `is_resolve_self` uses `starts_with`, so the
plugin resolves against the package's own `exports` and produces the
not-exported error instead. -/
theorem c8_counterexample :
    (chars "foobar/x").takeWhile (fun c => c ≠ 47) ≠ chars "foo"
    ∧ exportsApply (τ := Unit)
        { json := { name := some (chars "foo")
                    exportsFieldTree := some () }
          dirPath := chars "/proj/foo" }
        (fun _ _ => false) (fun _ _ => .ok [])
        (fun s => { target := s, query := [], fragment := []
                    kind := .normal })
        (fun _ => true) (fun i => .failed i) (fun _ => .ok false)
        (fun i => i.path)
        { path := chars "/proj/foo/src"
          request :=
            { target := chars "foobar/x", query := [], fragment := []
              kind := .normal } }
      = some (.error (.unexpectedValue
          (chars "Package path " ++ chars "foobar/x"
            ++ chars " is not exported"))) := by
  constructor
  · decide
  · decide

/-- C8 (amended): for a Normal-kind request against an enclosing
package that is outside `node_modules`, has a declared `name` and an
`exports` tree, the `ExportsFieldPlugin` passes the request through
unchanged (self-reference does NOT apply) exactly when the declared
name is NOT a string PREFIX of the request target; whenever the name is
a prefix of the target — even one that differs from the bare module
head — the plugin engages and resolves against the package's own
`exports` tree. -/
theorem c8_self_reference_amended {τ : Type} (pkgInfo : PkgInfoView τ)
    (pathExists : Str → Str → Bool)
    (fieldProcess : τ → Str → Except Err (List Str))
    (parseRequest : Str → Request) (checkTarget : Str → Bool)
    (resolve : Info → RState) (loadIsFile : Str → Except Err Bool)
    (getPath : Info → Str) (info : Info) (root : τ) (n : Str)
    (hkind : info.request.kind = .normal)
    (hmod : isInModule pkgInfo = false)
    (hname : pkgInfo.json.name = some n)
    (htree : pkgInfo.json.exportsFieldTree = some root) :
    exportsApply pkgInfo pathExists fieldProcess parseRequest checkTarget
        resolve loadIsFile getPath info
      = some (.resolving info)
    ↔ strStartsWith info.request.target n = false := by
  have hself : isResolveSelf pkgInfo info
      = strStartsWith info.request.target n := by
    rw [isResolveSelf, hname]
  constructor
  · intro heq
    by_contra hns
    simp only [Bool.not_eq_false] at hns
    rw [exportsApply] at heq
    rw [if_neg (by simp [hkind])] at heq
    rw [if_neg (by rintro ⟨-, h2⟩; rw [hself, hns] at h2; exact h2 rfl)]
      at heq
    rw [htree] at heq
    simp only at heq
    rcases hstrip : (if strStartsWith info.request.target (chars "@")
          = true then
        (info.request.target.findIdx? (fun c => c == 47)).map
          (fun index => info.request.target.drop (index + 1))
      else some info.request.target) with _ | stripped
    · rw [hstrip] at heq
      cases heq
    · rw [hstrip] at heq
      simp only at heq
      rcases hidx : (stripped.findIdx? (fun c => c == 47)).map
          (fun index => stripped.drop index) with _ | sub
      · rw [hidx] at heq
        simp only at heq
        by_cases hpe : pathExists info.path info.request.target = true
            ∨ pkgInfo.json.name = some info.request.target
        · rw [if_pos hpe] at heq
          injection heq with heq
          exact exportsListPhase_ne_resolving _ _ _ _ _ _ _ _ _ _ _ heq
        · rw [if_neg hpe] at heq
          injection heq with heq
          exact RState.noConfusion heq
      · rw [hidx] at heq
        simp only at heq
        injection heq with heq
        exact exportsListPhase_ne_resolving _ _ _ _ _ _ _ _ _ _ _ heq
  · intro hns
    rw [exportsApply]
    rw [if_neg (by simp [hkind])]
    rw [if_pos ⟨by simp [hmod], by rw [hself, hns]; exact
      Bool.false_ne_true⟩]

/-- Witness for the amended C8: with name `foo` and target `bar` (not a
prefix match), the plugin passes the request through as `Resolving`. -/
theorem c8_self_reference_amended_witness :
    exportsApply (τ := Unit)
        { json := { name := some (chars "foo")
                    exportsFieldTree := some () }
          dirPath := chars "/proj/foo" }
        (fun _ _ => false) (fun _ _ => .ok [])
        (fun s => { target := s, query := [], fragment := []
                    kind := .normal })
        (fun _ => true) (fun i => .failed i) (fun _ => .ok false)
        (fun i => i.path)
        { path := chars "/proj/foo/src"
          request :=
            { target := chars "bar", query := [], fragment := []
              kind := .normal } }
      = some (.resolving
          { path := chars "/proj/foo/src"
            request :=
              { target := chars "bar", query := [], fragment := []
                kind := .normal } }) :=
  (c8_self_reference_amended _ _ _ _ _ _ _ _ _ () (chars "foo")
    rfl (by decide) rfl rfl).mpr (by decide)

theorem pkgInfoChain_cons_considered {α : Type} (descFile : Str)
    (isDir : List Str → Bool) (readDesc : List Str → DescRead α)
    (path : List Str) (rest : List (List Str))
    (h : pkgConsidered descFile isDir path) :
    pkgInfoChain descFile isDir readDesc (path :: rest)
      = match readDesc (pkgPathOf descFile path) with
        | .ok a => .ok (some a)
        | .unexpectedJson p => .error (.unexpectedJson p)
        | .unexpectedValue m => .error (.unexpectedValue m)
        | .ioNotFound => pkgInfoChain descFile isDir readDesc rest := by
  simp only [pkgInfoChain]
  rw [if_pos (show isDir path = true ∨ path.getLast? = some descFile
    from h), pkgPathOf]

theorem pkgInfoChain_cons_skipped {α : Type} (descFile : Str)
    (isDir : List Str → Bool) (readDesc : List Str → DescRead α)
    (path : List Str) (rest : List (List Str))
    (h : ¬pkgConsidered descFile isDir path) :
    pkgInfoChain descFile isDir readDesc (path :: rest)
      = pkgInfoChain descFile isDir readDesc rest := by
  simp only [pkgInfoChain]
  rw [if_neg (show ¬(isDir path = true ∨ path.getLast? = some descFile)
    from h)]

theorem pkgInfoChain_skip_step {α : Type} (descFile : Str)
    (isDir : List Str → Bool) (readDesc : List Str → DescRead α)
    (path : List Str) (rest : List (List Str))
    (h : pkgSkips descFile isDir readDesc path) :
    pkgInfoChain descFile isDir readDesc (path :: rest)
      = pkgInfoChain descFile isDir readDesc rest := by
  rcases h with hnc | hio
  · exact pkgInfoChain_cons_skipped descFile isDir readDesc path rest hnc
  · by_cases hc : pkgConsidered descFile isDir path
    · rw [pkgInfoChain_cons_considered descFile isDir readDesc path rest
        hc, hio]
    · exact pkgInfoChain_cons_skipped descFile isDir readDesc path rest hc

theorem pkgInfoChain_skip_pre {α : Type} (descFile : Str)
    (isDir : List Str → Bool) (readDesc : List Str → DescRead α)
    (pre rest : List (List Str))
    (h : ∀ q ∈ pre, pkgSkips descFile isDir readDesc q) :
    pkgInfoChain descFile isDir readDesc (pre ++ rest)
      = pkgInfoChain descFile isDir readDesc rest := by
  induction pre with
  | nil => rfl
  | cons q qs ih =>
      rw [List.cons_append,
        pkgInfoChain_skip_step descFile isDir readDesc q _
          (h q (List.mem_cons_self q qs))]
      exact ih (fun y hy => h y (List.mem_cons_of_mem q hy))

theorem pkgInfoChain_ok_none_iff {α : Type} (descFile : Str)
    (isDir : List Str → Bool) (readDesc : List Str → DescRead α) :
    ∀ chain, pkgInfoChain descFile isDir readDesc chain = .ok none
      ↔ ∀ path ∈ chain, pkgSkips descFile isDir readDesc path := by
  intro chain
  induction chain with
  | nil => simp [pkgInfoChain]
  | cons path rest ih =>
      by_cases hc : pkgConsidered descFile isDir path
      · rw [pkgInfoChain_cons_considered descFile isDir readDesc path rest
          hc]
        rcases hr : readDesc (pkgPathOf descFile path) with a | p | m | _
        · constructor
          · intro h; cases h
          · intro h
            rcases h path (List.mem_cons_self _ _) with hnc | hio
            · exact absurd hc hnc
            · rw [hr] at hio; cases hio
        · constructor
          · intro h; cases h
          · intro h
            rcases h path (List.mem_cons_self _ _) with hnc | hio
            · exact absurd hc hnc
            · rw [hr] at hio; cases hio
        · constructor
          · intro h; cases h
          · intro h
            rcases h path (List.mem_cons_self _ _) with hnc | hio
            · exact absurd hc hnc
            · rw [hr] at hio; cases hio
        · rw [ih]
          constructor
          · intro h q hq
            rcases List.mem_cons.mp hq with rfl | hq'
            · exact Or.inr hr
            · exact h q hq'
          · intro h q hq
            exact h q (List.mem_cons_of_mem path hq)
      · rw [pkgInfoChain_cons_skipped descFile isDir readDesc path rest hc,
          ih]
        constructor
        · intro h q hq
          rcases List.mem_cons.mp hq with rfl | hq'
          · exact Or.inl hc
          · exact h q hq'
        · intro h q hq
          exact h q (List.mem_cons_of_mem path hq)

/-- C5: `Entry::pkg_info` over the ancestor chain. (1) A level without a
readable descriptor (not considered, or I/O not-found) delegates to the
parent. (2) When every nearer level is skipped and a considered level's
read fails to parse (`UnexpectedJson` or `UnexpectedValue`), the whole
lookup aborts with that error. (3) The lookup returns `None` exactly
when every level is skipped; with the filesystem coherence that a
directory containing a readable descriptor stats as a directory, `None`
implies that no ancestor has a readable descriptor. -/
theorem c5_pkg_info_error_handling {α : Type} (descFile : Str)
    (isDir : List Str → Bool) (readDesc : List Str → DescRead α) :
    (∀ (path : List Str) (rest : List (List Str)),
      pkgSkips descFile isDir readDesc path →
      pkgInfoChain descFile isDir readDesc (path :: rest)
        = pkgInfoChain descFile isDir readDesc rest)
    ∧ (∀ (pre : List (List Str)) (path : List Str)
        (rest : List (List Str)),
        (∀ q ∈ pre, pkgSkips descFile isDir readDesc q) →
        pkgConsidered descFile isDir path →
        (∀ p, readDesc (pkgPathOf descFile path) = .unexpectedJson p →
          pkgInfoChain descFile isDir readDesc (pre ++ path :: rest)
            = .error (.unexpectedJson p))
        ∧ (∀ m, readDesc (pkgPathOf descFile path) = .unexpectedValue m →
          pkgInfoChain descFile isDir readDesc (pre ++ path :: rest)
            = .error (.unexpectedValue m)))
    ∧ (∀ chain, pkgInfoChain descFile isDir readDesc chain = .ok none
        ↔ ∀ path ∈ chain, pkgSkips descFile isDir readDesc path)
    ∧ ((∀ q a, readDesc (q ++ [descFile]) = .ok a → isDir q = true) →
        ∀ chain, pkgInfoChain descFile isDir readDesc chain = .ok none →
        ∀ path ∈ chain, ∀ a,
          readDesc (pkgPathOf descFile path) ≠ .ok a) := by
  refine ⟨pkgInfoChain_skip_step descFile isDir readDesc,
    fun pre path rest hpre hc => ?_,
    pkgInfoChain_ok_none_iff descFile isDir readDesc,
    fun hcoh chain hnone path hmem a hok => ?_⟩
  · constructor
    · intro p hp
      rw [pkgInfoChain_skip_pre descFile isDir readDesc pre _ hpre,
        pkgInfoChain_cons_considered descFile isDir readDesc path rest hc,
        hp]
    · intro m hm
      rw [pkgInfoChain_skip_pre descFile isDir readDesc pre _ hpre,
        pkgInfoChain_cons_considered descFile isDir readDesc path rest hc,
        hm]
  · have hskip := (pkgInfoChain_ok_none_iff descFile isDir readDesc
      chain).mp hnone path hmem
    rcases hskip with hnc | hio
    · by_cases hsuf : path.getLast? = some descFile
      · exact hnc (Or.inr hsuf)
      · rw [pkgPathOf, if_neg hsuf] at hok
        exact hnc (Or.inl (hcoh path a hok))
    · rw [hio] at hok
      cases hok

/-- Witness for C5 at concrete inputs: a chain whose own level has no
descriptor (I/O not-found) and whose parent level has a malformed
descriptor aborts the lookup with the parent level's `UnexpectedJson`. -/
theorem c5_pkg_info_error_handling_witness :
    pkgInfoChain (α := Unit) (chars "package.json") (fun _ => true)
        (fun p => if p = [chars "a", chars "b", chars "package.json"]
          then .ioNotFound else .unexpectedJson (chars "bad"))
        [[chars "a", chars "b"], [chars "a"]]
      = .error (.unexpectedJson (chars "bad")) := by
  have h := (c5_pkg_info_error_handling (α := Unit) (chars "package.json")
    (fun _ => true)
    (fun p => if p = [chars "a", chars "b", chars "package.json"]
      then .ioNotFound else .unexpectedJson (chars "bad"))).2.1
    [[chars "a", chars "b"]] [chars "a"] []
    (by
      intro q hq
      rcases List.mem_cons.mp hq with rfl | hq'
      · exact Or.inr (by decide)
      · cases hq')
    (Or.inl rfl)
  exact h.1 (chars "bad") (by decide)

theorem merge_null_left (v : Json) : merge .null v = v := by
  cases v <;> simp [merge]

theorem lookupJ_eq_none_of_not_mem_keys (l : List (Str × Json)) (k : Str)
    (h : k ∉ l.map Prod.fst) : lookupJ l k = none := by
  induction l with
  | nil => rfl
  | cons e rest ih =>
      obtain ⟨k', v⟩ := e
      rw [lookupJ]
      rw [if_neg (by
        rintro rfl
        exact h (List.mem_map.mpr ⟨(k', v), List.mem_cons_self _ _, rfl⟩))]
      exact ih (fun hm => h (List.mem_cons_of_mem _ hm))

theorem lookupJ_replaceJ_self (a : List (Str × Json)) (k : Str)
    (nv : Json) (av : Json) (h : lookupJ a k = some av) :
    lookupJ (replaceJ a k nv) k = some nv := by
  induction a with
  | nil => cases h
  | cons e rest ih =>
      obtain ⟨k', v⟩ := e
      rw [lookupJ] at h
      rw [replaceJ]
      by_cases hk : k' = k
      · rw [if_pos hk, lookupJ, if_pos hk]
      · rw [if_neg hk, lookupJ, if_neg hk]
        rw [if_neg hk] at h
        exact ih h

theorem lookupJ_replaceJ_other (a : List (Str × Json)) (k k' : Str)
    (nv : Json) (h : k' ≠ k) :
    lookupJ (replaceJ a k nv) k' = lookupJ a k' := by
  induction a with
  | nil => rfl
  | cons e rest ih =>
      obtain ⟨k₀, v⟩ := e
      rw [replaceJ]
      by_cases hk : k₀ = k
      · rw [if_pos hk, lookupJ, lookupJ,
          if_neg (by rw [hk]; exact fun hh => h hh.symm),
          if_neg (by rw [hk]; exact fun hh => h hh.symm)]
      · rw [if_neg hk, lookupJ, lookupJ]
        by_cases hk' : k₀ = k'
        · rw [if_pos hk', if_pos hk']
        · rw [if_neg hk', if_neg hk']
          exact ih

theorem lookupJ_append_some (a : List (Str × Json)) (e : Str × Json)
    (k : Str) (x : Json) (h : lookupJ a k = some x) :
    lookupJ (a ++ [e]) k = some x := by
  induction a with
  | nil => cases h
  | cons e₀ rest ih =>
      obtain ⟨k₀, v⟩ := e₀
      rw [lookupJ] at h
      rw [List.cons_append, lookupJ]
      by_cases hk : k₀ = k
      · rw [if_pos hk]; rw [if_pos hk] at h; exact h
      · rw [if_neg hk]; rw [if_neg hk] at h; exact ih h

theorem lookupJ_append_none (a : List (Str × Json)) (k₁ : Str) (v : Json)
    (k : Str) (h : lookupJ a k = none) :
    lookupJ (a ++ [(k₁, v)]) k = if k₁ = k then some v else none := by
  induction a with
  | nil => rfl
  | cons e₀ rest ih =>
      obtain ⟨k₀, v₀⟩ := e₀
      rw [lookupJ] at h
      rw [List.cons_append, lookupJ]
      by_cases hk : k₀ = k
      · rw [if_pos hk] at h; cases h
      · rw [if_neg hk]; rw [if_neg hk] at h; exact ih h

theorem lookupJ_mergeEntry_self (a : List (Str × Json)) (k : Str)
    (v : Json) :
    lookupJ (mergeEntry a k v) k
      = some (match lookupJ a k with
          | some av => merge av v
          | none => merge .null v) := by
  rw [mergeEntry]
  rcases ha : lookupJ a k with _ | av
  · rw [lookupJ_append_none a k (merge Json.null v) k ha, if_pos rfl]
  · rw [lookupJ_replaceJ_self a k (merge av v) av ha]

theorem lookupJ_mergeEntry_other (a : List (Str × Json)) (k k' : Str)
    (v : Json) (h : k' ≠ k) :
    lookupJ (mergeEntry a k v) k' = lookupJ a k' := by
  rw [mergeEntry]
  rcases ha : lookupJ a k with _ | av
  · rcases ha' : lookupJ a k' with _ | x
    · rw [lookupJ_append_none a k (merge Json.null v) k' ha',
        if_neg (fun hh => h hh.symm)]
    · rw [lookupJ_append_some a (k, merge Json.null v) k' x ha']
  · rw [lookupJ_replaceJ_other a k k' (merge av v) h]

theorem lookupJ_mergeEntries (a b : List (Str × Json))
    (hnd : (b.map Prod.fst).Nodup) (k : Str) :
    lookupJ (mergeEntries a b) k
      = match lookupJ b k with
        | some vb => some (match lookupJ a k with
            | some va => merge va vb
            | none => merge .null vb)
        | none => lookupJ a k := by
  induction b generalizing a with
  | nil => rw [mergeEntries, lookupJ]
  | cons e rest ih =>
      obtain ⟨kb, vb⟩ := e
      rw [List.map_cons, List.nodup_cons] at hnd
      obtain ⟨hkb, hrest⟩ := hnd
      rw [mergeEntries, ih (mergeEntry a kb vb) hrest, lookupJ]
      by_cases hk : kb = k
      · subst hk
        rw [if_pos rfl,
          lookupJ_eq_none_of_not_mem_keys rest kb hkb,
          lookupJ_mergeEntry_self a kb vb]
      · rw [if_neg hk, lookupJ_mergeEntry_other a kb k vb
          (fun hh => hk hh.symm)]

theorem merge_keeps_non_null (va vb : Json) (hnull : va ≠ .null)
    (hobj : va.isObj = false ∨ vb.isObj = false) : merge va vb = va := by
  cases va <;> cases vb <;>
    first
      | (exact absurd rfl hnull)
      | (solve | simp [merge])
      | (rcases hobj with h | h <;> exact absurd h (by simp [Json.isObj]))

/-- C7: the tsconfig `extends` merge never overwrites the extending
file. For every key: a non-null extender value is kept (exactly, when
either side is not an object; merged recursively, when both sides are
objects); the extendee's value fills the key only when the extender's
value is missing or null. Top-level: merging two JSON objects merges
their entry lists. -/
theorem c7_extends_merge_never_overwrites (ea eb : List (Str × Json))
    (hnd : (eb.map Prod.fst).Nodup) (k : Str) :
    (∀ va, lookupJ ea k = some va → va ≠ .null →
      lookupJ (mergeEntries ea eb) k
        = some (match lookupJ eb k with
            | some vb => merge va vb
            | none => va)
      ∧ ∀ vb, lookupJ eb k = some vb →
          (va.isObj = false ∨ vb.isObj = false) → merge va vb = va)
    ∧ ((lookupJ ea k = some .null ∨ lookupJ ea k = none) →
        ∀ vb, lookupJ eb k = some vb →
          lookupJ (mergeEntries ea eb) k = some vb)
    ∧ merge (Json.obj ea) (Json.obj eb) = .obj (mergeEntries ea eb) := by
  refine ⟨fun va hva hnull => ⟨?_, fun vb hvb hobj =>
      merge_keeps_non_null va vb hnull hobj⟩,
    fun hn vb hvb => ?_, by simp [merge]⟩
  · rw [lookupJ_mergeEntries ea eb hnd k, hva]
    rcases hvb : lookupJ eb k with _ | vb
    · rfl
    · rfl
  · rw [lookupJ_mergeEntries ea eb hnd k, hvb]
    rcases hn with hn | hn
    · rw [hn]
      show some (merge Json.null vb) = some vb
      rw [merge_null_left]
    · rw [hn]
      show some (merge Json.null vb) = some vb
      rw [merge_null_left]

/-- Witness for C7 at concrete inputs: merging
`{"a": 1, "o": {...}}` (extender) with `{"a": 2, "b": 3}` (extendee)
keeps the extender's value for `"a"`. -/
theorem c7_extends_merge_never_overwrites_witness :
    lookupJ
        (mergeEntries
          [(chars "a", Json.num 1), (chars "o", Json.obj [])]
          [(chars "a", Json.num 2), (chars "b", Json.num 3)])
        (chars "a")
      = some (.num 1) := by
  have h := (c7_extends_merge_never_overwrites
    [(chars "a", Json.num 1), (chars "o", Json.obj [])]
    [(chars "a", Json.num 2), (chars "b", Json.num 3)]
    (by decide) (chars "a")).1 (.num 1) rfl
    (fun hh => Json.noConfusion hh)
  rw [h.1]
  have h2 := h.2 (.num 2) rfl (Or.inl rfl)
  show some (merge (Json.num 1) (Json.num 2)) = some (Json.num 1)
  rw [h2]

theorem browserFieldsOf_ne_none (m : List (Str × Json))
    (h : ∀ kv ∈ m, kv.2 ≠ Json.bool true) :
    ∀ acc, browserFieldsOf m acc ≠ none := by
  induction m with
  | nil => intro acc hc; cases hc
  | cons kv rest ih =>
      intro acc
      obtain ⟨k, v⟩ := kv
      have hv := h (k, v) (List.mem_cons_self _ _)
      have htail := fun y hy => h y (List.mem_cons_of_mem (k, v) hy)
      rcases v with _ | b | n | str | xs | fields
      · exact ih htail acc
      · rcases b with _ | _
        · exact ih htail (indexMapInsert acc k .ignored)
        · exact absurd rfl hv
      · exact ih htail acc
      · exact ih htail (indexMapInsert acc k (.target str))
      · exact ih htail acc
      · exact ih htail acc

theorem browserFieldsOf_skips_other_values (m : List (Str × Json)) :
    ∀ acc, browserFieldsOf m acc
      = browserFieldsOf (m.filter fun kv => jsonIsStrOrBool kv.2) acc := by
  induction m with
  | nil => intro acc; rfl
  | cons kv rest ih =>
      intro acc
      obtain ⟨k, v⟩ := kv
      rcases v with _ | b | n | str | xs | fields
      · simp [browserFieldsOf, List.filter_cons, jsonIsStrOrBool, ih]
      · rcases b with _ | _ <;>
          simp [browserFieldsOf, List.filter_cons, jsonIsStrOrBool, ih]
      · simp [browserFieldsOf, List.filter_cons, jsonIsStrOrBool, ih]
      · simp [browserFieldsOf, List.filter_cons, jsonIsStrOrBool, ih]
      · simp [browserFieldsOf, List.filter_cons, jsonIsStrOrBool, ih]
      · simp [browserFieldsOf, List.filter_cons, jsonIsStrOrBool, ih]

theorem pkgJsonParseRest_ne_assertionFailure {τ ι : Type}
    (buildExports : Json → Except Err τ) (buildImports : Json → Except Err ι)
    (filePathDisplay : Str) (valueDisplay : Json → Str)
    (jget : String → Option Json) (aliasFields : List (Str × AliasKind)) :
    pkgJsonParseRest buildExports buildImports filePathDisplay valueDisplay
        jget aliasFields
      ≠ .assertionFailure := by
  intro h
  simp only [pkgJsonParseRest] at h
  split at h
  · exact ParseOutcome.noConfusion h
  · split at h
    · exact ParseOutcome.noConfusion h
    · split at h
      · exact ParseOutcome.noConfusion h
      · exact ParseOutcome.noConfusion h

/-- C10 counterexample: `PkgJSON::parse` is NOT total — the
`assert!(!b)` in the `browser` loop fails (the Rust process panics) on
the descriptor `{"browser": {"a": true}}`. -/
theorem c10_counterexample :
    pkgJsonParse (τ := Unit) (ι := Unit) (fun _ => .ok ()) (fun _ => .ok ())
        (chars "/p/package.json") (fun _ => chars "")
        (some (.obj [(chars "browser", .obj [(chars "a", .bool true)])]))
      = .assertionFailure := by
  rfl

/-- C10 (amended): `PkgJSON::parse` returns `Ok` or a structured error
(never the assertion failure) on every input whose `browser` object has
no `true`-valued boolean entry; a boolean `true` fires the assertion.
Browser-object values that are neither strings nor booleans are skipped
without error: dropping them from the `browser` object does not change
the computed alias map, and under the same no-`true` condition the loop
itself never fails. -/
theorem c10_parse_totality_amended {τ ι : Type}
    (buildExports : Json → Except Err τ) (buildImports : Json → Except Err ι)
    (filePathDisplay : Str) (valueDisplay : Json → Str)
    (content : Option Json)
    (hb : ∀ fields bm, content = some (.obj fields) →
      lookupJ fields (chars "browser") = some (.obj bm) →
      ∀ kv ∈ bm, kv.2 ≠ Json.bool true) :
    pkgJsonParse buildExports buildImports filePathDisplay valueDisplay
        content ≠ .assertionFailure
    ∧ ∀ (m : List (Str × Json)) (acc : List (Str × AliasKind)),
        browserFieldsOf m acc
          = browserFieldsOf (m.filter fun kv => jsonIsStrOrBool kv.2) acc
        ∧ ((∀ kv ∈ m, kv.2 ≠ Json.bool true) →
            browserFieldsOf m acc ≠ none) := by
  refine ⟨?_, fun m acc =>
    ⟨browserFieldsOf_skips_other_values m acc,
     fun hm => browserFieldsOf_ne_none m hm acc⟩⟩
  intro h
  rcases content with _ | j
  · exact ParseOutcome.noConfusion h
  · rcases j with _ | b | n | str | xs | fields
    · exact pkgJsonParseRest_ne_assertionFailure buildExports buildImports
        filePathDisplay valueDisplay (fun _ => none) []
        (show pkgJsonParseRest buildExports buildImports filePathDisplay
          valueDisplay (fun _ => none) [] = ParseOutcome.assertionFailure
          from h)
    · exact pkgJsonParseRest_ne_assertionFailure buildExports buildImports
        filePathDisplay valueDisplay (fun _ => none) []
        (show pkgJsonParseRest buildExports buildImports filePathDisplay
          valueDisplay (fun _ => none) [] = ParseOutcome.assertionFailure
          from h)
    · exact pkgJsonParseRest_ne_assertionFailure buildExports buildImports
        filePathDisplay valueDisplay (fun _ => none) []
        (show pkgJsonParseRest buildExports buildImports filePathDisplay
          valueDisplay (fun _ => none) [] = ParseOutcome.assertionFailure
          from h)
    · exact pkgJsonParseRest_ne_assertionFailure buildExports buildImports
        filePathDisplay valueDisplay (fun _ => none) []
        (show pkgJsonParseRest buildExports buildImports filePathDisplay
          valueDisplay (fun _ => none) [] = ParseOutcome.assertionFailure
          from h)
    · exact pkgJsonParseRest_ne_assertionFailure buildExports buildImports
        filePathDisplay valueDisplay (fun _ => none) []
        (show pkgJsonParseRest buildExports buildImports filePathDisplay
          valueDisplay (fun _ => none) [] = ParseOutcome.assertionFailure
          from h)
    · have h' : (match (match lookupJ fields (chars "browser") with
            | some (.obj m) => browserFieldsOf m []
            | _ => some []) with
          | none => (ParseOutcome.assertionFailure : ParseOutcome τ ι)
          | some aliasFields =>
              pkgJsonParseRest buildExports buildImports filePathDisplay
                valueDisplay (fun key => lookupJ fields (chars key))
                aliasFields)
          = ParseOutcome.assertionFailure := h
      rcases hbrow : lookupJ fields (chars "browser") with _ | bv
      · rw [hbrow] at h'
        exact pkgJsonParseRest_ne_assertionFailure _ _ _ _ _ _ h'
      · rw [hbrow] at h'
        rcases bv with _ | b | n | str | xs | bm
        · exact pkgJsonParseRest_ne_assertionFailure _ _ _ _ _ _ h'
        · exact pkgJsonParseRest_ne_assertionFailure _ _ _ _ _ _ h'
        · exact pkgJsonParseRest_ne_assertionFailure _ _ _ _ _ _ h'
        · exact pkgJsonParseRest_ne_assertionFailure _ _ _ _ _ _ h'
        · exact pkgJsonParseRest_ne_assertionFailure _ _ _ _ _ _ h'
        · have h'' : (match browserFieldsOf bm [] with
              | none => (ParseOutcome.assertionFailure : ParseOutcome τ ι)
              | some aliasFields =>
                  pkgJsonParseRest buildExports buildImports
                    filePathDisplay valueDisplay
                    (fun key => lookupJ fields (chars key)) aliasFields)
              = ParseOutcome.assertionFailure := h'
          rcases hbf : browserFieldsOf bm [] with _ | af
          · exact browserFieldsOf_ne_none bm
              (hb fields bm rfl hbrow) [] hbf
          · rw [hbf] at h''
            exact pkgJsonParseRest_ne_assertionFailure _ _ _ _ _ _ h''

/-- Witness for the amended C10 at a concrete input: a descriptor whose
`browser` object holds a `false` boolean, a string, and a number parses
without assertion failure (the number entry is skipped). -/
theorem c10_parse_totality_amended_witness :
    pkgJsonParse (τ := Unit) (ι := Unit) (fun _ => .ok ()) (fun _ => .ok ())
        (chars "/p/package.json") (fun _ => chars "")
        (some (.obj [(chars "browser",
          .obj [(chars "a", .bool false), (chars "b", .str (chars "./b")),
                (chars "c", .num 3)])]))
      ≠ .assertionFailure :=
  (c10_parse_totality_amended (fun _ => .ok ()) (fun _ => .ok ())
    (chars "/p/package.json") (fun _ => chars "")
    (some (.obj [(chars "browser",
      .obj [(chars "a", .bool false), (chars "b", .str (chars "./b")),
            (chars "c", .num 3)])]))
    (by
      intro fields bm hc hl kv hkv
      injection hc with hc
      injection hc with hc
      subst hc
      rw [show lookupJ [(chars "browser",
          Json.obj [(chars "a", Json.bool false),
            (chars "b", Json.str (chars "./b")),
            (chars "c", Json.num 3)])] (chars "browser")
        = some (Json.obj [(chars "a", Json.bool false),
            (chars "b", Json.str (chars "./b")),
            (chars "c", Json.num 3)]) from rfl] at hl
      injection hl with hl
      injection hl with hl
      subst hl
      rcases List.mem_cons.mp hkv with rfl | hkv'
      · exact fun hh => Json.noConfusion hh (fun hb => Bool.noConfusion hb)
      · rcases List.mem_cons.mp hkv' with rfl | hkv''
        · exact fun hh => Json.noConfusion hh
        · rcases List.mem_cons.mp hkv'' with rfl | hkv'''
          · exact fun hh => Json.noConfusion hh
          · cases hkv''')).1

/-- C9 counterexample: `Resolver::new` does NOT strip leading dots from
the configured extensions — the default options store `.js`, `.json`,
`.node`, each beginning with `.` (code point 46). -/
theorem c9_counterexample :
    (resolverNew (fun _ => false) (fun a b => a ++ b) []
        defaultROptions).extensions
      = [chars ".js", chars ".json", chars ".node"]
    ∧ ((resolverNew (fun _ => false) (fun a b => a ++ b) []
        defaultROptions).extensions.all
          (fun ext => ext.head? = some 46)) = true := by
  constructor <;> decide

/-- C9 (amended): `Resolver::new` (src/lib.rs lines 93-134) stores the
`extensions` option unchanged — it resolves `enforce_extension` and
absolutizes `tsconfig`, but performs no normalization of extensions, so
entries keep any leading `.` they were configured with. -/
theorem c9_new_keeps_extensions_amended (isAbsolute : Str → Bool)
    (joinPath : Str → Str → Str) (cwd : Str) (options : ROptions) :
    (resolverNew isAbsolute joinPath cwd options).extensions
      = options.extensions := rfl

end NodeResolver
